import Mathlib

/-!
# Verification of the board-components grid layout utilities

This file gives a shallow embedding, in Lean, of the grid layout logic of the
board-components repository and proves properties of it.

* `src/internal/utils/layout.ts` is embedded directly:
  `interpretItems`, `transformItems`, `createPlaceholdersLayout` and their
  helper functions are translated function by function.
* The interactive `LayoutEngine` (grid validation, move and resize commands,
  path normalization) is not among the analyzed sources — only its unit tests
  are — so it is modelled from the specification; every such definition carries
  a doc comment starting with `Modelled from the spec:`.

Modelling conventions:

* JavaScript numbers are modelled as `Nat` (all quantities involved are
  non-negative integers in every behavior exercised here).
* Sparse per-column-count hint objects (`{ [columns]: value }`) are modelled as
  functions `Nat → Option Nat`; an absent object and an empty object are both
  the constantly-`none` map (the two are observationally identical through all
  reads and writes performed by this module).
* Reads of `columnHeights[col]` for `col` beyond the array length yield
  `undefined` in JavaScript (and poison subsequent arithmetic with `NaN`);
  the model reads `0` instead.  No statement proved below evaluates the
  embedding in that regime except where only the unaffected `width` component
  of the result is observed.
-/

namespace Board

/-- Modelled from the spec: the process-wide fixed minimum column span
constant (`MIN_COL_SPAN` from the internal constants module, which is not
among the analyzed sources). -/
def MIN_COL_SPAN : Nat := 1

/-- Modelled from the spec: the process-wide fixed minimum row span constant
(`MIN_ROW_SPAN` from the internal constants module, which is not among the
analyzed sources). -/
def MIN_ROW_SPAN : Nat := 2

/-- A sparse mapping from a column count to a setting value
(`BoardItemLayoutSetting`). -/
def HintMap : Type := Nat → Option Nat

/-- The empty hint mapping (also standing for an absent mapping). -/
def emptyHint : HintMap := fun _ => none

/-- The `definition` part of a board item: optional min/default span rules. -/
structure ItemDefinition where
  minColumnSpan : Option HintMap := none
  defaultColumnSpan : Option HintMap := none
  minRowSpan : Option Nat := none
  defaultRowSpan : Option Nat := none

/-- A board item (`BoardItemDefinition` in the source): an identity plus
optional per-column-count span/offset hints and min/default span rules. -/
structure Item where
  id : String
  columnSpan : HintMap := emptyHint
  columnOffset : HintMap := emptyHint
  rowSpan : HintMap := emptyHint
  definition : Option ItemDefinition := none

/-- A placed rectangle of a grid layout (`GridLayoutItem`). -/
structure GridLayoutItem where
  id : String
  x : Nat
  y : Nat
  width : Nat
  height : Nat
deriving DecidableEq, Repr

/-- A grid layout (`GridLayout`): placed rectangles, column count, row count. -/
structure GridLayout where
  items : List GridLayoutItem
  columns : Nat
  rows : Nat

/-- `getColumnSpanForColumns`: scan the hint mapping downward from `columns`
to `0` and return the first defined entry, falling back to `MIN_COL_SPAN`
(also when the mapping is absent). -/
def hintLookupDown (f : HintMap) : Nat → Option Nat
  | 0 => f 0
  | n + 1 =>
    match f (n + 1) with
    | some v => some v
    | none => hintLookupDown f n

/-- `getColumnSpanForColumns(columnSpan, columns)` from the source. -/
def getColumnSpanForColumns (columnSpan : Option HintMap) (columns : Nat) : Nat :=
  match columnSpan with
  | none => MIN_COL_SPAN
  | some f =>
    match hintLookupDown f columns with
    | some v => v
    | none => MIN_COL_SPAN

/-- `getItemMinColumnSpan(item, columns)` from the source. -/
def getItemMinColumnSpan (item : Item) (columns : Nat) : Nat :=
  max MIN_COL_SPAN (getColumnSpanForColumns (item.definition.bind (·.minColumnSpan)) columns)

/-- `getItemDefaultColumnSpan(item, columns)` from the source. -/
def getItemDefaultColumnSpan (item : Item) (columns : Nat) : Nat :=
  min columns
    (max (getItemMinColumnSpan item columns)
      (getColumnSpanForColumns (item.definition.bind (·.defaultColumnSpan)) columns))

/-- `getItemMinRowSpan(item)` from the source. -/
def getItemMinRowSpan (item : Item) : Nat :=
  max MIN_ROW_SPAN ((item.definition.bind (·.minRowSpan)).getD 0)

/-- `getItemDefaultRowSpan(item)` from the source. -/
def getItemDefaultRowSpan (item : Item) : Nat :=
  max (getItemMinRowSpan item) ((item.definition.bind (·.defaultRowSpan)).getD 0)

/-- The closure `getColumnSpan(item)` of `interpretItems`, with the captured
`columns` made explicit. -/
def getColumnSpan (columns : Nat) (item : Item) : Nat :=
  max (getItemMinColumnSpan item columns)
    ((item.columnSpan columns).getD (getItemDefaultColumnSpan item columns))

/-- The closure `getRowSpan(item)` of `interpretItems`, with the captured
`columns` made explicit. -/
def getRowSpan (columns : Nat) (item : Item) : Nat :=
  max (getItemMinRowSpan item) ((item.rowSpan columns).getD (getItemDefaultRowSpan item))

/-- The closure `getRowOffset(columnOffset, columnSpan)` of `interpretItems`:
the maximum of `columnHeights` over the spanned columns. -/
def getRowOffset (columnHeights : List Nat) (columnOffset columnSpan : Nat) : Nat :=
  (List.range columnSpan).foldl (fun acc i => max acc (columnHeights.getD (columnOffset + i) 0)) 0

/-- One scan of the `for` loops inside `findOptimalColumnOffset`, written
with an explicit iteration bound (the loop runs at most `columns + 1` times
because the guard `colOffset + columnSpan <= columns` fails once `colOffset`
exceeds `columns`): starting at `colOffset`, return the first offset at which
the item both fits inside the columns and does not raise the total row
count. -/
def scanFitFuel (columnHeights : List Nat) (columns columnSpan rowSpan : Nat) :
    Nat → Nat → Option Nat
  | 0, _ => none
  | fuel + 1, colOffset =>
    if colOffset + columnSpan ≤ columns then
      if getRowOffset columnHeights colOffset columnSpan + rowSpan ≤
          getRowOffset columnHeights 0 columns then
        some colOffset
      else
        scanFitFuel columnHeights columns columnSpan rowSpan fuel (colOffset + 1)
    else
      none

/-- One scan of the `for` loops inside `findOptimalColumnOffset`. -/
def scanFit (columnHeights : List Nat) (columns columnSpan rowSpan colOffset : Nat) : Option Nat :=
  scanFitFuel columnHeights columns columnSpan rowSpan (columns + 1) colOffset

/-- The closure `findOptimalColumnOffset(currentColumnOffset, columnSpan,
rowSpan)` of `interpretItems`: scan rightward from the cursor, then from 0,
then fall back to the cursor position (or 0 when it would overflow). -/
def findOptimalColumnOffset (columnHeights : List Nat) (columns currentColumnOffset columnSpan rowSpan : Nat) : Nat :=
  match scanFit columnHeights columns columnSpan rowSpan currentColumnOffset with
  | some o => o
  | none =>
    match scanFit columnHeights columns columnSpan rowSpan 0 with
    | some o => o
    | none => if currentColumnOffset + columnSpan ≤ columns then currentColumnOffset else 0

/-- The closure `getColumnOffset(item, currentOffset)` of `interpretItems`:
an explicit offset hint is used verbatim, otherwise the optimal offset is
searched. -/
def getColumnOffset (columns : Nat) (columnHeights : List Nat) (item : Item) (currentOffset : Nat) : Nat :=
  (item.columnOffset columns).getD
    (findOptimalColumnOffset columnHeights columns currentOffset (getColumnSpan columns item)
      (getRowSpan columns item))

/-- `columnHeights[col] = value` for the spanned columns. -/
def setRange (l : List Nat) (start span v : Nat) : List Nat :=
  (List.range span).foldl (fun acc i => acc.set (start + i) v) l

/-- The running state of the placement loop of `interpretItems`. -/
structure PackState where
  columnHeights : List Nat
  cursor : Nat
  placed : List GridLayoutItem

/-- One iteration of the placement loop of `interpretItems`. -/
def interpretStep (columns : Nat) (st : PackState) (item : Item) : PackState :=
  let columnSpan := getColumnSpan columns item
  let rowSpan := getRowSpan columns item
  let columnOffset := getColumnOffset columns st.columnHeights item st.cursor
  let rowOffset := getRowOffset st.columnHeights columnOffset columnSpan
  { columnHeights := setRange st.columnHeights columnOffset columnSpan (rowOffset + rowSpan)
    cursor := columnOffset + columnSpan
    placed := st.placed ++ [⟨item.id, columnOffset, rowOffset, columnSpan, rowSpan⟩] }

/-- The row-major ordering used by `itemComparator`: `a` sorts no later than
`b` (the comparator returns `-1`) iff `a.y < b.y`, or `a.y = b.y` and
`a.x ≤ b.x`. -/
def itemLe (a b : GridLayoutItem) : Bool :=
  if a.y ≠ b.y then decide (a.y < b.y) else decide (a.x ≤ b.x)

/-- The `itemComparator` ordering as a relation. -/
def itemRel (a b : GridLayoutItem) : Prop := itemLe a b = true

theorem itemLe_iff (a b : GridLayoutItem) :
    itemLe a b = true ↔ a.y < b.y ∨ (a.y = b.y ∧ a.x ≤ b.x) := by
  unfold itemLe
  by_cases h : a.y = b.y <;> simp [h]

instance : DecidableRel itemRel := fun a b => instDecidableEqBool (itemLe a b) true

instance : IsTotal GridLayoutItem itemRel where
  total a b := by simp only [itemRel, itemLe_iff]; omega

instance : IsTrans GridLayoutItem itemRel where
  trans a b c := by simp only [itemRel, itemLe_iff]; omega

/-- The `layoutItems.sort(itemComparator)` call.  JavaScript's `Array.sort`
is a stable sort; for the total, transitive `itemComparator` ordering every
stable sort computes the same list, so the (stable) insertion sort stands in
for it. -/
def sortRowMajor (l : List GridLayoutItem) : List GridLayoutItem :=
  l.insertionSort itemRel

/-- `interpretItems(items, columns)` from the source: greedy column-height
balancing placement, output re-sorted row-major. -/
def interpretItems (items : List Item) (columns : Nat) : GridLayout :=
  let st := items.foldl (interpretStep columns) ⟨List.replicate columns 0, 0, []⟩
  { items := sortRowMajor st.placed
    columns := columns
    rows := getRowOffset st.columnHeights 0 columns }

/-- `createPlaceholdersLayout(rows, columns)` from the source. -/
def createPlaceholdersLayout (rows columns : Nat) : GridLayout :=
  { items :=
      (List.range rows).flatMap fun row =>
        (List.range columns).map fun col =>
          ⟨s!"awsui-placeholder-{row}-{col}", col, row, 1, 1⟩
    columns := columns
    rows := rows }

/-- `writeItemSetting(item, name, layout, value)` from the source, acting on
the named hint mapping (a missing mapping is the empty mapping). -/
def writeItemSetting (m : HintMap) (layout value : Nat) : HintMap :=
  fun k => if k = layout then some value else m k

/-- The `findIndex` computation of `transformItems`: the first index at which
the sorted layout's id differs from the source item id.  Returns `none` when
the source list is exhausted first (the JavaScript code would fault reading
`sourceItems[index].id`), `some none` when no divergence is found, and
`some (some i)` for the first diverging index `i`. -/
def findChangeIdx : List GridLayoutItem → List Item → Nat → Option (Option Nat)
  | [], _, _ => some none
  | _ :: _, [], _ => none
  | l :: ls, s :: ss, i => if s.id = l.id then findChangeIdx ls ss (i + 1) else some (some i)

/-- The `Map`-backed `getItem` lookup of `transformItems`: the last source
item carrying the id (later `Map` insertions overwrite earlier ones). -/
def getItemById (sourceItems : List Item) (id : String) : Option Item :=
  sourceItems.reverse.find? (fun it => it.id == id)

/-- The loop body of `transformItems` for one layout rectangle `l` at
position `index`: copy the matching source item, clear its offset hints when
`index` is at or past the divergence index, then write the current layout's
settings (`columnOffset` and `columnSpan` under the column count,
`rowSpan` under the row count). -/
def transformOne (columns rows changeFromIndex index : Nat) (l : GridLayoutItem) (src : Item) : Item :=
  let src := if changeFromIndex ≤ index then { src with columnOffset := emptyHint } else src
  { src with
    columnOffset := writeItemSetting src.columnOffset columns l.x
    columnSpan := writeItemSetting src.columnSpan columns l.width
    rowSpan := writeItemSetting src.rowSpan rows l.height }

/-- The output-building loop of `transformItems`: for each layout rectangle in
row-major order, copy the source item, clear its offset hints from the
divergence index on, and write the settings of the new layout. -/
def buildTransformed (sourceItems : List Item) (columns rows changeFromIndex : Nat) :
    List GridLayoutItem → Nat → Option (List Item)
  | [], _ => some []
  | l :: ls, index =>
    match getItemById sourceItems l.id with
    | none => none
    | some src =>
      match buildTransformed sourceItems columns rows changeFromIndex ls (index + 1) with
      | none => none
      | some rest => some (transformOne columns rows changeFromIndex index l src :: rest)

/-- `transformItems(sourceItems, gridLayout)` from the source.  The value is
`none` when the JavaScript code would throw (a layout id with no matching
source item, or the divergence scan reading past the end of the source
list). -/
def transformItems (sourceItems : List Item) (gridLayout : GridLayout) : Option (List Item) :=
  match findChangeIdx (sortRowMajor gridLayout.items) sourceItems 0 with
  | none => none
  | some idxOpt =>
    buildTransformed sourceItems gridLayout.columns gridLayout.rows
      (match idxOpt with
        | some i => i
        | none => (sortRowMajor gridLayout.items).length - 1)
      (sortRowMajor gridLayout.items) 0

/-! ## Helper lemmas about the placement loop -/

/-- Every rectangle produced by the placement loop of `interpretItems` either
was already in the accumulator or records the computed column/row span of one
of the processed items. -/
theorem foldl_interpretStep_placed (columns : Nat) (items : List Item) :
    ∀ (st : PackState) (it : GridLayoutItem),
      it ∈ (items.foldl (interpretStep columns) st).placed →
      it ∈ st.placed ∨
        ∃ src ∈ items, it.id = src.id ∧ it.width = getColumnSpan columns src ∧
          it.height = getRowSpan columns src := by
  induction items with
  | nil => intro st it h; exact Or.inl h
  | cons x xs ih =>
    intro st it h
    simp only [List.foldl_cons] at h
    rcases ih _ _ h with hmem | ⟨src, hsrc, hprops⟩
    · simp only [interpretStep, List.mem_append, List.mem_singleton] at hmem
      rcases hmem with hold | hnew
      · exact Or.inl hold
      · exact Or.inr ⟨x, List.mem_cons_self x xs, by subst hnew; exact ⟨rfl, rfl, rfl⟩⟩
    · exact Or.inr ⟨src, List.mem_cons_of_mem x hsrc, hprops⟩

/-! ## Claim C2 -/

/-- C2, counterexample: for an item with the explicit columnSpan hint `5` for
column count `2`, the span computed by `interpretItems` is `5`, which exceeds
the column count: the result is not clamped to `columns` when an explicit
hint is present. -/
theorem claim2_counterexample :
    ((interpretItems [{ id := "E", columnSpan := fun k => if k = 2 then some 5 else none }] 2).items.map
        (fun it => it.width)) = [5] ∧ ¬ (5 : Nat) ≤ 2 :=
  ⟨by decide, by decide⟩

/-- C2, amended: every rectangle of `interpretItems` carries the id of a
source item and has as width the maximum of *that* item's minimum span and
its hinted-or-default span; the width does not exceed the column count
provided the span is not taken from an explicit `columnSpan` hint of that
item for that column count and that item's minimum span does not exceed the
column count (the default span is clamped to `columns`, an explicit hint is
used unclamped). -/
theorem claim2_theorem (items : List Item) (columns : Nat) (it : GridLayoutItem)
    (hmem : it ∈ (interpretItems items columns).items) :
    ∃ src ∈ items, it.id = src.id ∧
      it.width = max (getItemMinColumnSpan src columns)
          ((src.columnSpan columns).getD (getItemDefaultColumnSpan src columns)) ∧
      (src.columnSpan columns = none → getItemMinColumnSpan src columns ≤ columns →
        it.width ≤ columns) := by
  unfold interpretItems at hmem
  simp only [sortRowMajor, List.mem_insertionSort] at hmem
  rcases foldl_interpretStep_placed columns items _ _ hmem with hfalse | ⟨src, hsrc, hid, hw, hh⟩
  · simp at hfalse
  · refine ⟨src, hsrc, hid, hw, fun hnone hmin => ?_⟩
    rw [hw]
    unfold getColumnSpan
    rw [hnone]
    simp only [Option.getD_none]
    have hdef : getItemDefaultColumnSpan src columns ≤ columns := Nat.min_le_left _ _
    omega

/-- C2, witness for the amended theorem at a concrete input. -/
theorem claim2_witness :
    ((⟨"A", 0, 0, 1, 2⟩ : GridLayoutItem) ∈ (interpretItems [{ id := "A" }] 1).items) ∧
      ∃ src ∈ [({ id := "A" } : Item)],
        (⟨"A", 0, 0, 1, 2⟩ : GridLayoutItem).id = src.id ∧
        (⟨"A", 0, 0, 1, 2⟩ : GridLayoutItem).width = max (getItemMinColumnSpan src 1)
            ((src.columnSpan 1).getD (getItemDefaultColumnSpan src 1)) ∧
        (src.columnSpan 1 = none → getItemMinColumnSpan src 1 ≤ 1 →
          (⟨"A", 0, 0, 1, 2⟩ : GridLayoutItem).width ≤ 1) :=
  ⟨by decide, claim2_theorem [{ id := "A" }] 1 ⟨"A", 0, 0, 1, 2⟩ (by decide)⟩

/-! ## Claim C10 -/

/-- The cell-coverage predicate: the rectangle `it` covers the cell
`(col, row)`. -/
def coversCell (col row : Nat) (it : GridLayoutItem) : Bool :=
  decide (it.x ≤ col ∧ col < it.x + it.width ∧ it.y ≤ row ∧ row < it.y + it.height)

theorem countP_placeholderRow (col row r : Nat) :
    ∀ cols : Nat,
      (((List.range cols).map fun c =>
            (⟨s!"awsui-placeholder-{r}-{c}", c, r, 1, 1⟩ : GridLayoutItem)).countP
          (coversCell col row)) = if r = row ∧ col < cols then 1 else 0 := by
  intro cols
  induction cols with
  | zero => simp
  | succ n ih =>
    rw [List.range_succ, List.map_append, List.countP_append, ih]
    simp only [List.map_cons, List.map_nil, List.countP_cons, List.countP_nil]
    by_cases hr : r = row
    · subst hr
      by_cases hc : col = n
      · subst hc
        simp [coversCell]
      · by_cases hlt : col < n
        · simp only [hlt, and_true, if_pos rfl, true_and, if_pos (Nat.lt_succ_of_lt hlt)]
          have : coversCell col r ⟨s!"awsui-placeholder-{r}-{n}", n, r, 1, 1⟩ = false := by
            simp [coversCell]; omega
          simp [this]
        · have h1 : ¬ col < n + 1 := by omega
          simp only [hlt, and_true, true_and, if_neg hlt, if_neg h1]
          have : coversCell col r ⟨s!"awsui-placeholder-{r}-{n}", n, r, 1, 1⟩ = false := by
            simp [coversCell]; omega
          simp [this]
    · have : coversCell col row ⟨s!"awsui-placeholder-{r}-{n}", n, r, 1, 1⟩ = false := by
        simp [coversCell]; omega
      simp [this, hr]

/-- C10: `createPlaceholdersLayout` returns a layout with exactly
`rows * columns` items, each of width 1 and height 1, covering every cell
`(col, row)` with `col < columns` and `row < rows` exactly once, and whose
`columns` and `rows` fields equal the arguments. -/
theorem claim10_theorem (rows columns : Nat) :
    (createPlaceholdersLayout rows columns).columns = columns ∧
    (createPlaceholdersLayout rows columns).rows = rows ∧
    (createPlaceholdersLayout rows columns).items.length = rows * columns ∧
    (∀ it ∈ (createPlaceholdersLayout rows columns).items, it.width = 1 ∧ it.height = 1) ∧
    (∀ col row, col < columns → row < rows →
      ((createPlaceholdersLayout rows columns).items.countP (coversCell col row)) = 1) := by
  refine ⟨rfl, rfl, ?_, ?_, ?_⟩
  · induction rows with
    | zero => simp [createPlaceholdersLayout]
    | succ n ih =>
      unfold createPlaceholdersLayout at ih ⊢
      rw [List.range_succ, List.flatMap_append, List.length_append, ih]
      simp [Nat.succ_mul]
  · intro it hit
    unfold createPlaceholdersLayout at hit
    simp only [List.mem_flatMap, List.mem_map, List.mem_range] at hit
    obtain ⟨row, -, col, -, rfl⟩ := hit
    exact ⟨rfl, rfl⟩
  · intro col row hcol hrow
    have block : ∀ rws : Nat,
        (((List.range rws).flatMap fun r =>
              (List.range columns).map fun c =>
                (⟨s!"awsui-placeholder-{r}-{c}", c, r, 1, 1⟩ : GridLayoutItem)).countP
            (coversCell col row)) = if row < rws ∧ col < columns then 1 else 0 := by
      intro rws
      induction rws with
      | zero => simp
      | succ n ih =>
        rw [List.range_succ, List.flatMap_append, List.countP_append, ih]
        simp only [List.flatMap_cons, List.flatMap_nil, List.append_nil]
        rw [countP_placeholderRow]
        by_cases hr : row < n
        · rw [if_pos ⟨hr, hcol⟩, if_neg (by omega), if_pos ⟨by omega, hcol⟩]
        · by_cases hrn : n = row
          · subst hrn
            rw [if_neg (by omega), if_pos ⟨rfl, hcol⟩, if_pos ⟨by omega, hcol⟩]
          · rw [if_neg (by omega), if_neg (by omega), if_neg (by omega)]
    unfold createPlaceholdersLayout
    rw [block rows, if_pos ⟨hrow, hcol⟩]

/-! ## Claim C1 -/

/-- The fit condition of the source's `findOptimalColumnOffset`: the item
fits inside the columns at offset `o`, and placing it there (its resulting
row plus its row span) does not exceed the current maximum row height across
the whole grid. -/
def fitsAt (columnHeights : List Nat) (columns columnSpan rowSpan o : Nat) : Prop :=
  o + columnSpan ≤ columns ∧
    getRowOffset columnHeights o columnSpan + rowSpan ≤ getRowOffset columnHeights 0 columns

instance (columnHeights : List Nat) (columns columnSpan rowSpan o : Nat) :
    Decidable (fitsAt columnHeights columns columnSpan rowSpan o) := by
  unfold fitsAt
  exact instDecidableAnd

theorem scanFitFuel_some_iff (hs : List Nat) (cols span rSpan : Nat) :
    ∀ (fuel o r : Nat), cols + 1 ≤ fuel + o →
      (scanFitFuel hs cols span rSpan fuel o = some r ↔
        o ≤ r ∧ fitsAt hs cols span rSpan r ∧
          ∀ o', o ≤ o' → o' < r → ¬ fitsAt hs cols span rSpan o') := by
  intro fuel
  induction fuel with
  | zero =>
    intro o r h
    simp only [scanFitFuel]
    constructor
    · intro hh; cases hh
    · rintro ⟨h1, ⟨h2, -⟩, -⟩; omega
  | succ n ih =>
    intro o r h
    simp only [scanFitFuel]
    by_cases hg : o + span ≤ cols
    · rw [if_pos hg]
      by_cases hc : getRowOffset hs o span + rSpan ≤ getRowOffset hs 0 cols
      · rw [if_pos hc]
        constructor
        · intro hh
          cases hh
          exact ⟨Nat.le_refl _, ⟨hg, hc⟩, fun o' h1 h2 => absurd (Nat.lt_of_le_of_lt h1 h2) (Nat.lt_irrefl _)⟩
        · rintro ⟨h1, ⟨hg', hc'⟩, h3⟩
          rcases Nat.lt_or_ge o r with hlt | hge
          · exact absurd ⟨hg, hc⟩ (h3 o (Nat.le_refl _) hlt)
          · have : r = o := Nat.le_antisymm (Nat.le_trans hge (Nat.le_refl _)) h1
            rw [this]
      · rw [if_neg hc]
        rw [ih (o + 1) r (by omega)]
        constructor
        · rintro ⟨h1, h2, h3⟩
          refine ⟨by omega, h2, fun o' ho1 ho2 => ?_⟩
          rcases Nat.eq_or_lt_of_le ho1 with heq | hlt
          · rw [← heq]; exact fun hf => hc hf.2
          · exact h3 o' hlt ho2
        · rintro ⟨h1, h2, h3⟩
          have hne : ¬ fitsAt hs cols span rSpan o := fun hf => hc hf.2
          have : o < r := by
            rcases Nat.eq_or_lt_of_le h1 with heq | hlt
            · exact absurd (heq ▸ h2) hne
            · exact hlt
          exact ⟨this, h2, fun o' ho1 ho2 => h3 o' (by omega) ho2⟩
    · rw [if_neg hg]
      constructor
      · intro hh; cases hh
      · rintro ⟨h1, ⟨h2, -⟩, -⟩; omega

theorem scanFitFuel_none_iff (hs : List Nat) (cols span rSpan : Nat) :
    ∀ (fuel o : Nat), cols + 1 ≤ fuel + o →
      (scanFitFuel hs cols span rSpan fuel o = none ↔
        ∀ o', o ≤ o' → ¬ fitsAt hs cols span rSpan o') := by
  intro fuel
  induction fuel with
  | zero =>
    intro o h
    simp only [scanFitFuel]
    constructor
    · rintro - o' h1 ⟨h2, -⟩; omega
    · intro; trivial
  | succ n ih =>
    intro o h
    simp only [scanFitFuel]
    by_cases hg : o + span ≤ cols
    · rw [if_pos hg]
      by_cases hc : getRowOffset hs o span + rSpan ≤ getRowOffset hs 0 cols
      · rw [if_pos hc]
        constructor
        · intro hh; cases hh
        · intro hall; exact absurd ⟨hg, hc⟩ (hall o (Nat.le_refl _))
      · rw [if_neg hc]
        rw [ih (o + 1) (by omega)]
        constructor
        · intro hall o' ho
          rcases Nat.eq_or_lt_of_le ho with heq | hlt
          · rw [← heq]; exact fun hf => hc hf.2
          · exact hall o' hlt
        · intro hall o' ho
          exact hall o' (by omega)
    · rw [if_neg hg]
      constructor
      · rintro - o' h1 ⟨h2, -⟩; omega
      · intro; rfl

theorem scanFit_some_iff (hs : List Nat) (cols span rSpan o r : Nat) :
    scanFit hs cols span rSpan o = some r ↔
      o ≤ r ∧ fitsAt hs cols span rSpan r ∧
        ∀ o', o ≤ o' → o' < r → ¬ fitsAt hs cols span rSpan o' :=
  scanFitFuel_some_iff hs cols span rSpan (cols + 1) o r (by omega)

theorem scanFit_none_iff (hs : List Nat) (cols span rSpan o : Nat) :
    scanFit hs cols span rSpan o = none ↔
      ∀ o', o ≤ o' → ¬ fitsAt hs cols span rSpan o' :=
  scanFitFuel_none_iff hs cols span rSpan (cols + 1) o (by omega)

/-- C1, amended: for an item without an explicit offset hint,
`findOptimalColumnOffset` returns the leftmost offset at or after the running
cursor at which the item fits — where fitting means the resulting row *plus
the item's row span* does not exceed the current maximum row height across
the whole grid; if no offset at or after the cursor fits, it returns the
leftmost fitting offset from column 0; if none fits at all, it falls back to
the cursor position, or to 0 when the cursor position would overflow the
right edge. -/
theorem claim1_theorem (hs : List Nat) (cols cur span rSpan : Nat) :
    ((∃ o', cur ≤ o' ∧ fitsAt hs cols span rSpan o') →
      cur ≤ findOptimalColumnOffset hs cols cur span rSpan ∧
      fitsAt hs cols span rSpan (findOptimalColumnOffset hs cols cur span rSpan) ∧
      ∀ o', cur ≤ o' → o' < findOptimalColumnOffset hs cols cur span rSpan →
        ¬ fitsAt hs cols span rSpan o') ∧
    ((¬ ∃ o', cur ≤ o' ∧ fitsAt hs cols span rSpan o') →
      (∃ o', fitsAt hs cols span rSpan o') →
      fitsAt hs cols span rSpan (findOptimalColumnOffset hs cols cur span rSpan) ∧
      ∀ o', o' < findOptimalColumnOffset hs cols cur span rSpan →
        ¬ fitsAt hs cols span rSpan o') ∧
    ((¬ ∃ o', fitsAt hs cols span rSpan o') →
      findOptimalColumnOffset hs cols cur span rSpan =
        if cur + span ≤ cols then cur else 0) := by
  cases h1 : scanFit hs cols span rSpan cur with
  | some o =>
    obtain ⟨ha, hb, hc⟩ := (scanFit_some_iff hs cols span rSpan cur o).mp h1
    have hval : findOptimalColumnOffset hs cols cur span rSpan = o := by
      unfold findOptimalColumnOffset
      rw [h1]
    refine ⟨fun _ => ⟨hval ▸ ha, hval ▸ hb, hval ▸ hc⟩, fun hno _ => ?_, fun hno => ?_⟩
    · exact absurd ⟨o, ha, hb⟩ hno
    · exact absurd ⟨o, hb⟩ hno
  | none =>
    have hnone := (scanFit_none_iff hs cols span rSpan cur).mp h1
    cases h2 : scanFit hs cols span rSpan 0 with
    | some o =>
      obtain ⟨-, hb, hc⟩ := (scanFit_some_iff hs cols span rSpan 0 o).mp h2
      have hval : findOptimalColumnOffset hs cols cur span rSpan = o := by
        unfold findOptimalColumnOffset
        rw [h1, h2]
      refine ⟨fun hex => ?_, fun _ _ => ?_, fun hno => ?_⟩
      · obtain ⟨o', ho1, ho2⟩ := hex
        exact absurd ho2 (hnone o' ho1)
      · exact ⟨hval ▸ hb, hval ▸ fun o' ho => hc o' (Nat.zero_le _) ho⟩
      · exact absurd ⟨o, hb⟩ hno
    | none =>
      have hnone0 := (scanFit_none_iff hs cols span rSpan 0).mp h2
      have hval : findOptimalColumnOffset hs cols cur span rSpan =
          if cur + span ≤ cols then cur else 0 := by
        unfold findOptimalColumnOffset
        rw [h1, h2]
      refine ⟨fun hex => ?_, fun _ hex => ?_, fun _ => hval⟩
      · obtain ⟨o', ho1, ho2⟩ := hex
        exact absurd ho2 (hnone o' ho1)
      · obtain ⟨o', ho⟩ := hex
        exact absurd ho (hnone0 o' (Nat.zero_le _))

/-- C1, witness for the amended theorem: with column heights `[4, 2]`, two
columns, cursor 0, span 1 and row span 2, offset 1 is the leftmost fitting
offset. -/
theorem claim1_witness :
    (∃ o', 0 ≤ o' ∧ fitsAt [4, 2] 2 1 2 o') ∧
      (0 ≤ findOptimalColumnOffset [4, 2] 2 0 1 2 ∧
        fitsAt [4, 2] 2 1 2 (findOptimalColumnOffset [4, 2] 2 0 1 2) ∧
        ∀ o', 0 ≤ o' → o' < findOptimalColumnOffset [4, 2] 2 0 1 2 →
          ¬ fitsAt [4, 2] 2 1 2 o') :=
  ⟨⟨1, Nat.zero_le 1, by decide⟩,
    (claim1_theorem [4, 2] 2 0 1 2).1 ⟨1, Nat.zero_le 1, by decide⟩⟩

/-- The offset-choice rule exactly as claim C1 states it: identical scanning
structure, but the fit condition compares the resulting row itself (the
maximum of `columnHeights` over the span) against the current maximum row
height, without adding the item's row span. -/
def claimedScanFitFuel (columnHeights : List Nat) (columns columnSpan : Nat) :
    Nat → Nat → Option Nat
  | 0, _ => none
  | fuel + 1, colOffset =>
    if colOffset + columnSpan ≤ columns then
      if getRowOffset columnHeights colOffset columnSpan ≤
          getRowOffset columnHeights 0 columns then
        some colOffset
      else
        claimedScanFitFuel columnHeights columns columnSpan fuel (colOffset + 1)
    else
      none

/-- The full offset rule of claim C1, literally: scan from the cursor, then
from 0, then fall back to the cursor (or 0 on overflow), accepting the first
offset whose resulting row does not exceed the maximum row height. -/
def claimedOptimalColumnOffset (columnHeights : List Nat) (columns currentColumnOffset columnSpan : Nat) : Nat :=
  match claimedScanFitFuel columnHeights columns columnSpan (columns + 1) currentColumnOffset with
  | some o => o
  | none =>
    match claimedScanFitFuel columnHeights columns columnSpan (columns + 1) 0 with
    | some o => o
    | none => if currentColumnOffset + columnSpan ≤ columns then currentColumnOffset else 0

/-- An item carrying only a rowSpan hint for column count 3. -/
def rowHintItem (nm : String) (v : Nat) : Item :=
  { id := nm, rowSpan := fun k => if k = 3 then some v else none }

/-- The packing state after the first three items of the C1 counterexample
scenario have been placed. -/
def c1State : PackState :=
  [rowHintItem "A" 4, rowHintItem "B" 2, rowHintItem "C" 4].foldl
    (interpretStep 3) ⟨List.replicate 3 0, 0, []⟩

/-- C1, counterexample: with items of row spans 4, 2, 4, 2 on 3 columns, the
fourth item "D" (no offset hint, span 1, row span 2) is placed by
`interpretItems` at column offset 1, while the rule as the claim states it —
resulting row (max of `columnHeights` over the span) not exceeding the
maximum row height — picks offset 0 from the same running state (heights
`[4, 2, 4]`, cursor 3). -/
theorem claim1_counterexample :
    ((rowHintItem "D" 2).columnOffset 3 = none) ∧
    getColumnSpan 3 (rowHintItem "D" 2) = 1 ∧
    getRowSpan 3 (rowHintItem "D" 2) = 2 ∧
    c1State.columnHeights = [4, 2, 4] ∧ c1State.cursor = 3 ∧
    claimedOptimalColumnOffset c1State.columnHeights 3 c1State.cursor 1 = 0 ∧
    ((interpretItems [rowHintItem "A" 4, rowHintItem "B" 2, rowHintItem "C" 4,
        rowHintItem "D" 2] 3).items.filter (fun it => it.id == "D")) =
      [⟨"D", 1, 2, 1, 2⟩] ∧
    (1 : Nat) ≠ 0 := by
  refine ⟨rfl, by decide, by decide, by decide, by decide, by decide, by decide, by decide⟩

/-! ## Helper lemmas about `transformItems` -/

theorem getItemById_id (srcs : List Item) (nm : String) (it : Item)
    (h : getItemById srcs nm = some it) : it.id = nm := by
  unfold getItemById at h
  have := List.find?_some h
  exact eq_of_beq this

theorem getItemById_isSome (srcs : List Item) (nm : String)
    (h : ∃ it ∈ srcs, it.id = nm) : ∃ s, getItemById srcs nm = some s := by
  unfold getItemById
  obtain ⟨it, hmem, hid⟩ := h
  have : (srcs.reverse.find? (fun i => i.id == nm)).isSome := by
    rw [List.find?_isSome]
    exact ⟨it, List.mem_reverse.mpr hmem, by simp [hid]⟩
  exact Option.isSome_iff_exists.mp this

theorem findChangeIdx_ne_none :
    ∀ (ls : List GridLayoutItem) (ss : List Item) (i : Nat), ls.length ≤ ss.length →
      findChangeIdx ls ss i ≠ none := by
  intro ls
  induction ls with
  | nil => intro ss i _; simp [findChangeIdx]
  | cons l ls ih =>
    intro ss i hlen
    cases ss with
    | nil => simp at hlen
    | cons s ss =>
      simp only [findChangeIdx]
      by_cases hid : s.id = l.id
      · rw [if_pos hid]
        exact ih ss (i + 1) (by simpa using hlen)
      · rw [if_neg hid]
        simp

theorem findChangeIdx_some_some_iff :
    ∀ (ls : List GridLayoutItem) (ss : List Item) (i j : Nat),
      findChangeIdx ls ss i = some (some (i + j)) ↔
        ((∀ k < j, ∃ l s, ls[k]? = some l ∧ ss[k]? = some s ∧ s.id = l.id) ∧
          ∃ l s, ls[j]? = some l ∧ ss[j]? = some s ∧ s.id ≠ l.id) := by
  intro ls
  induction ls with
  | nil =>
    intro ss i j
    simp [findChangeIdx]
  | cons l ls ih =>
    intro ss i j
    cases ss with
    | nil =>
      simp only [findChangeIdx]
      constructor
      · intro hh; cases hh
      · rintro ⟨-, l', s', -, hs, -⟩
        simp at hs
    | cons s ss =>
      simp only [findChangeIdx]
      by_cases hid : s.id = l.id
      · rw [if_pos hid]
        cases j with
        | zero =>
          constructor
          · intro hh
            have : ∀ ls' ss' i' j', findChangeIdx ls' ss' i' = some (some j') → i' ≤ j' := by
              intro ls'
              induction ls' with
              | nil => intro ss' i' j' hh'; simp [findChangeIdx] at hh'
              | cons a as iha =>
                intro ss' i' j' hh'
                cases ss' with
                | nil => simp [findChangeIdx] at hh'
                | cons b bs =>
                  simp only [findChangeIdx] at hh'
                  by_cases hab : b.id = a.id
                  · rw [if_pos hab] at hh'
                    have := iha bs (i' + 1) j' hh'
                    omega
                  · rw [if_neg hab] at hh'
                    simp at hh'
                    omega
            have := this ls ss (i + 1) (i + 0) hh
            omega
          · rintro ⟨-, l', s', hl, hs, hne⟩
            simp only [List.getElem?_cons_zero, Option.some.injEq] at hl hs
            subst hl; subst hs
            exact absurd hid hne
        | succ n =>
          have heq : i + (n + 1) = (i + 1) + n := by omega
          rw [heq, ih ss (i + 1) n]
          constructor
          · rintro ⟨h1, h2⟩
            refine ⟨fun k hk => ?_, ?_⟩
            · cases k with
              | zero => exact ⟨l, s, by simp, by simp, hid⟩
              | succ m =>
                have := h1 m (by omega)
                simpa using this
            · simpa using h2
          · rintro ⟨h1, h2⟩
            refine ⟨fun k hk => ?_, ?_⟩
            · have := h1 (k + 1) (by omega)
              simpa using this
            · simpa using h2
      · rw [if_neg hid]
        cases j with
        | zero =>
          simp only [Nat.add_zero, Option.some.injEq]
          constructor
          · intro; exact ⟨fun k hk => by omega, l, s, by simp, by simp, hid⟩
          · intro; trivial
        | succ n =>
          constructor
          · intro hh
            simp only [Option.some.injEq] at hh
            omega
          · rintro ⟨h1, -⟩
            have := h1 0 (by omega)
            obtain ⟨l', s', hl, hs, heq⟩ := this
            simp only [List.getElem?_cons_zero, Option.some.injEq] at hl hs
            subst hl; subst hs
            exact absurd heq hid

theorem findChangeIdx_some_none_iff :
    ∀ (ls : List GridLayoutItem) (ss : List Item) (i : Nat),
      findChangeIdx ls ss i = some none ↔
        ∀ k < ls.length, ∃ l s, ls[k]? = some l ∧ ss[k]? = some s ∧ s.id = l.id := by
  intro ls
  induction ls with
  | nil =>
    intro ss i
    simp [findChangeIdx]
  | cons l ls ih =>
    intro ss i
    cases ss with
    | nil =>
      simp only [findChangeIdx]
      constructor
      · intro hh; cases hh
      · intro h
        obtain ⟨l', s', -, hs, -⟩ := h 0 (by simp)
        simp at hs
    | cons s ss =>
      simp only [findChangeIdx]
      by_cases hid : s.id = l.id
      · rw [if_pos hid, ih ss (i + 1)]
        constructor
        · intro h k hk
          cases k with
          | zero => exact ⟨l, s, by simp, by simp, hid⟩
          | succ m =>
            have := h m (by simpa using hk)
            simpa using this
        · intro h k hk
          have := h (k + 1) (by simpa using hk)
          simpa using this
      · rw [if_neg hid]
        constructor
        · intro hh; simp at hh
        · intro h
          obtain ⟨l', s', hl, hs, heq⟩ := h 0 (by simp)
          simp only [List.getElem?_cons_zero, Option.some.injEq] at hl hs
          subst hl; subst hs
          exact absurd heq hid

theorem buildTransformed_isSome (srcs : List Item) (cols rows d : Nat) :
    ∀ (ls : List GridLayoutItem) (i : Nat),
      (∀ l ∈ ls, ∃ s, getItemById srcs l.id = some s) →
      ∃ out, buildTransformed srcs cols rows d ls i = some out := by
  intro ls
  induction ls with
  | nil => intro i _; exact ⟨[], rfl⟩
  | cons l ls ih =>
    intro i h
    obtain ⟨s, hs⟩ := h l (List.mem_cons_self l ls)
    obtain ⟨rest, hrest⟩ := ih (i + 1) (fun l' hl' => h l' (List.mem_cons_of_mem l hl'))
    exact ⟨transformOne cols rows d i l s :: rest, by simp only [buildTransformed, hs, hrest]⟩

theorem buildTransformed_get? (srcs : List Item) (cols rows d : Nat) :
    ∀ (ls : List GridLayoutItem) (i : Nat) (out : List Item),
      buildTransformed srcs cols rows d ls i = some out →
      ∀ j, out[j]? =
        (ls[j]?).bind fun l =>
          (getItemById srcs l.id).map (transformOne cols rows d (i + j) l) := by
  intro ls
  induction ls with
  | nil =>
    intro i out h j
    simp only [buildTransformed, Option.some.injEq] at h
    subst h
    simp
  | cons l ls ih =>
    intro i out h j
    simp only [buildTransformed] at h
    cases hs : getItemById srcs l.id with
    | none => rw [hs] at h; cases h
    | some src =>
      rw [hs] at h
      cases hrest : buildTransformed srcs cols rows d ls (i + 1) with
      | none => rw [hrest] at h; cases h
      | some rest =>
        rw [hrest] at h
        simp only [Option.some.injEq] at h
        subst h
        cases j with
        | zero => simp [hs]
        | succ m =>
          have := ih (i + 1) rest hrest m
          simp only [List.getElem?_cons_succ]
          rw [this]
          have : i + 1 + m = i + (m + 1) := by omega
          rw [this]

/-- The divergence index computed by `transformItems`: the first index at
which the sorted layout's id differs from the source item id, or the last
index of the sorted layout when there is no divergence. -/
def divergeIdx (sorted : List GridLayoutItem) (srcs : List Item) : Nat :=
  match findChangeIdx sorted srcs 0 with
  | some (some i) => i
  | _ => sorted.length - 1

/-- The result of `transformItems` when it succeeds (and `[]` otherwise). -/
def transformedOrEmpty (srcs : List Item) (g : GridLayout) : List Item :=
  (transformItems srcs g).getD []

theorem transformItems_eq_buildTransformed (srcs : List Item) (g : GridLayout)
    (h : (transformItems srcs g).isSome = true) :
    transformItems srcs g =
      buildTransformed srcs g.columns g.rows (divergeIdx (sortRowMajor g.items) srcs)
        (sortRowMajor g.items) 0 := by
  unfold transformItems at h ⊢
  cases hf : findChangeIdx (sortRowMajor g.items) srcs 0 with
  | none => rw [hf] at h; simp at h
  | some idxOpt =>
    unfold divergeIdx
    rw [hf]
    cases idxOpt with
    | none => rfl
    | some i => rfl

/-! ## Claim C5 -/

/-- C5, counterexample: the source item carries a rowSpan hint under key 1. -/
def c5Src : Item := { id := "A", rowSpan := fun k => if k = 1 then some 7 else none }

/-- C5, counterexample grid: 2 columns but only 1 row. -/
def c5Layout : GridLayout := { items := [⟨"A", 0, 0, 1, 1⟩], columns := 2, rows := 1 }

/-- C5, counterexample: `transformItems` writes the `rowSpan` hint under the
grid's row count (here 1), not its column count (here 2): the pre-existing
entry under key 1 ≠ columns is overwritten (7 becomes 1), and no entry is
written under the column-count key 2. -/
theorem claim5_counterexample :
    ((transformItems [c5Src] c5Layout).map fun l =>
        l.map fun it => (it.rowSpan 1, it.rowSpan 2)) = some [(some 1, none)] ∧
      (some 1 : Option Nat) ≠ some 7 :=
  ⟨by decide, by decide⟩

/-- C5, amended: for every source item list and new grid on which
`transformItems` succeeds, each output item has its `columnOffset` and
`columnSpan` hints rewritten under the grid's current *column* count to match
the new grid exactly, and its `rowSpan` hint rewritten under the grid's
current *row* count; `columnSpan` entries under any other column-count key
and `rowSpan` entries under any other row-count key are unchanged
(`columnOffset` entries under other keys follow the divergence rule of the
offset-clearing pass). -/
theorem claim5_theorem (srcs : List Item) (g : GridLayout)
    (h : (transformItems srcs g).isSome = true) (j : Nat) (it : Item)
    (hj : (transformedOrEmpty srcs g)[j]? = some it) :
    ∃ l src, (sortRowMajor g.items)[j]? = some l ∧ getItemById srcs l.id = some src ∧
      it.columnSpan g.columns = some l.width ∧
      (∀ k, k ≠ g.columns → it.columnSpan k = src.columnSpan k) ∧
      it.rowSpan g.rows = some l.height ∧
      (∀ k, k ≠ g.rows → it.rowSpan k = src.rowSpan k) ∧
      it.columnOffset g.columns = some l.x := by
  obtain ⟨out, hout⟩ := Option.isSome_iff_exists.mp h
  have heq := transformItems_eq_buildTransformed srcs g h
  rw [hout] at heq
  have hget := buildTransformed_get? srcs g.columns g.rows
    (divergeIdx (sortRowMajor g.items) srcs) (sortRowMajor g.items) 0 out heq.symm j
  rw [show transformedOrEmpty srcs g = out by rw [transformedOrEmpty, hout]; rfl] at hj
  rw [hj] at hget
  cases hl : (sortRowMajor g.items)[j]? with
  | none => rw [hl] at hget; cases hget
  | some l =>
    rw [hl] at hget
    simp only [Option.some_bind] at hget
    cases hsrc : getItemById srcs l.id with
    | none => rw [hsrc] at hget; cases hget
    | some src =>
      rw [hsrc] at hget
      simp only [Option.map_some', Option.some.injEq] at hget
      refine ⟨l, src, rfl, hsrc, ?_⟩
      rw [hget]
      unfold transformOne writeItemSetting
      by_cases hd : divergeIdx (sortRowMajor g.items) srcs ≤ 0 + j <;>
        simp only [hd, if_pos, if_neg, if_true, if_false] <;>
        refine ⟨by simp, fun k hk => by simp [hk], by simp, fun k hk => by simp [hk], by simp⟩

/-- C5, witness for the amended theorem at a concrete input. -/
theorem claim5_witness :
    ((transformItems [{ id := "A" }] ⟨[⟨"A", 0, 0, 1, 2⟩], 2, 2⟩).isSome = true) ∧
    ((transformedOrEmpty [{ id := "A" }] ⟨[⟨"A", 0, 0, 1, 2⟩], 2, 2⟩)[0]? =
      some (transformOne 2 2 0 0 ⟨"A", 0, 0, 1, 2⟩ { id := "A" })) ∧
    (∃ l src, (sortRowMajor [⟨"A", 0, 0, 1, 2⟩])[0]? = some l ∧
      getItemById [{ id := "A" }] l.id = some src ∧
      (transformOne 2 2 0 0 ⟨"A", 0, 0, 1, 2⟩ { id := "A" }).columnSpan 2 = some l.width ∧
      (∀ k, k ≠ 2 → (transformOne 2 2 0 0 ⟨"A", 0, 0, 1, 2⟩ { id := "A" }).columnSpan k =
        src.columnSpan k) ∧
      (transformOne 2 2 0 0 ⟨"A", 0, 0, 1, 2⟩ { id := "A" }).rowSpan 2 = some l.height ∧
      (∀ k, k ≠ 2 → (transformOne 2 2 0 0 ⟨"A", 0, 0, 1, 2⟩ { id := "A" }).rowSpan k =
        src.rowSpan k) ∧
      (transformOne 2 2 0 0 ⟨"A", 0, 0, 1, 2⟩ { id := "A" }).columnOffset 2 = some l.x) :=
  ⟨by decide, rfl,
    claim5_theorem [{ id := "A" }] ⟨[⟨"A", 0, 0, 1, 2⟩], 2, 2⟩ (by decide) 0 _ rfl⟩

/-! ## Claim C4 -/

/-- C4, counterexample: a source item with a columnOffset hint under key 4. -/
def c4Src : Item := { id := "A", columnOffset := fun k => if k = 4 then some 7 else none }

/-- C4, counterexample grid. -/
def c4Layout : GridLayout := { items := [⟨"A", 0, 0, 1, 2⟩], columns := 2, rows := 2 }

/-- C4, counterexample: the row-major order of the grid (`[A]`) does not
diverge from the source order (`[A]`) at any index, yet the item's stored
columnOffset hint under key 4 is cleared (the code sets the divergence index
to the last index when no divergence is found). -/
theorem claim4_counterexample :
    ((sortRowMajor c4Layout.items).map GridLayoutItem.id = [c4Src].map Item.id) ∧
    ((transformItems [c4Src] c4Layout).map fun l => l.map fun it => it.columnOffset 4) =
      some [none] ∧
    (none : Option Nat) ≠ some 7 :=
  ⟨by decide, by decide, by decide⟩

/-- C4, amended: `transformItems` computes the first index at which the new
grid's row-major order diverges from the original item order, falling back to
the *last* index of the layout when there is no divergence; every item at or
after that index has its previously stored column-offset hints cleared
(before the current column count's offset is re-written), while every item
strictly before it keeps its stored offsets.  In particular, when the
row-major order does not diverge at any index, exactly the item at the last
index has its offset hints cleared. -/
theorem claim4_theorem (srcs : List Item) (g : GridLayout)
    (h : (transformItems srcs g).isSome = true) :
    ((∃ (j : Nat) (l : GridLayoutItem) (s : Item), (sortRowMajor g.items)[j]? = some l ∧ srcs[j]? = some s ∧ s.id ≠ l.id) →
      (∀ k < divergeIdx (sortRowMajor g.items) srcs,
        ∃ (l : GridLayoutItem) (s : Item), (sortRowMajor g.items)[k]? = some l ∧ srcs[k]? = some s ∧ s.id = l.id) ∧
      ∃ (l : GridLayoutItem) (s : Item), (sortRowMajor g.items)[divergeIdx (sortRowMajor g.items) srcs]? = some l ∧
        srcs[divergeIdx (sortRowMajor g.items) srcs]? = some s ∧ s.id ≠ l.id) ∧
    ((¬ ∃ (j : Nat) (l : GridLayoutItem) (s : Item), (sortRowMajor g.items)[j]? = some l ∧ srcs[j]? = some s ∧ s.id ≠ l.id) →
      divergeIdx (sortRowMajor g.items) srcs = (sortRowMajor g.items).length - 1) ∧
    (∀ j it, (transformedOrEmpty srcs g)[j]? = some it →
      divergeIdx (sortRowMajor g.items) srcs ≤ j →
      ∀ k, k ≠ g.columns → it.columnOffset k = none) ∧
    (∀ j it l src, (transformedOrEmpty srcs g)[j]? = some it →
      j < divergeIdx (sortRowMajor g.items) srcs →
      (sortRowMajor g.items)[j]? = some l → getItemById srcs l.id = some src →
      ∀ k, k ≠ g.columns → it.columnOffset k = src.columnOffset k) := by
  obtain ⟨out, hout⟩ := Option.isSome_iff_exists.mp h
  have heq := transformItems_eq_buildTransformed srcs g h
  rw [hout] at heq
  have hne : findChangeIdx (sortRowMajor g.items) srcs 0 ≠ none := by
    intro hf
    unfold transformItems at hout
    rw [hf] at hout
    cases hout
  have hoffset : ∀ j it, (transformedOrEmpty srcs g)[j]? = some it →
      ∃ l src, (sortRowMajor g.items)[j]? = some l ∧ getItemById srcs l.id = some src ∧
        it = transformOne g.columns g.rows (divergeIdx (sortRowMajor g.items) srcs) j l src := by
    intro j it hj
    have hget := buildTransformed_get? srcs g.columns g.rows
      (divergeIdx (sortRowMajor g.items) srcs) (sortRowMajor g.items) 0 out heq.symm j
    rw [show transformedOrEmpty srcs g = out by rw [transformedOrEmpty, hout]; rfl] at hj
    rw [hj] at hget
    cases hl : (sortRowMajor g.items)[j]? with
    | none => rw [hl] at hget; cases hget
    | some l =>
      rw [hl] at hget
      simp only [Option.some_bind] at hget
      cases hsrc : getItemById srcs l.id with
      | none => rw [hsrc] at hget; cases hget
      | some src =>
        rw [hsrc] at hget
        simp only [Option.map_some', Option.some.injEq] at hget
        exact ⟨l, src, rfl, hsrc, by rw [hget, Nat.zero_add]⟩
  refine ⟨?_, ?_, ?_, ?_⟩
  · intro hdiv
    cases hf : findChangeIdx (sortRowMajor g.items) srcs 0 with
    | none => exact absurd hf hne
    | some idxOpt =>
      cases idxOpt with
      | none =>
        obtain ⟨j, l, s, hl, hs, hne'⟩ := hdiv
        have := (findChangeIdx_some_none_iff (sortRowMajor g.items) srcs 0).mp hf j
          (by
            have := List.getElem?_eq_some_iff.mp hl
            exact this.1)
        obtain ⟨l', s', hl', hs', heq'⟩ := this
        rw [hl] at hl'; rw [hs] at hs'
        cases hl'; cases hs'
        exact absurd heq' hne'
      | some i =>
        have hd : divergeIdx (sortRowMajor g.items) srcs = i := by
          unfold divergeIdx; rw [hf]
        have := (findChangeIdx_some_some_iff (sortRowMajor g.items) srcs 0 i).mp
          (by rw [Nat.zero_add]; exact hf)
        rw [hd]
        exact this
  · intro hnodiv
    cases hf : findChangeIdx (sortRowMajor g.items) srcs 0 with
    | none => exact absurd hf hne
    | some idxOpt =>
      cases idxOpt with
      | none => unfold divergeIdx; rw [hf]
      | some i =>
        have := (findChangeIdx_some_some_iff (sortRowMajor g.items) srcs 0 i).mp
          (by rw [Nat.zero_add]; exact hf)
        obtain ⟨-, l, s, hl, hs, hne'⟩ := this
        exact absurd ⟨i, l, s, hl, hs, hne'⟩ hnodiv
  · intro j it hj hd k hk
    obtain ⟨l, src, -, -, hit⟩ := hoffset j it hj
    rw [hit]
    unfold transformOne writeItemSetting
    rw [if_pos hd]
    simp [hk, emptyHint]
  · intro j it l src hj hd hl hsrc k hk
    obtain ⟨l', src', hl', hsrc', hit⟩ := hoffset j it hj
    rw [hl] at hl'; cases hl'
    rw [hsrc] at hsrc'; cases hsrc'
    rw [hit]
    unfold transformOne writeItemSetting
    rw [if_neg (by omega)]
    simp [hk]

/-- C4, witness for the amended theorem at a concrete input with a diverging
order. -/
theorem claim4_witness :
    ((transformItems [{ id := "A" }, { id := "B" }]
        ⟨[⟨"B", 0, 0, 1, 2⟩, ⟨"A", 1, 0, 1, 2⟩], 2, 2⟩).isSome = true) ∧
    (((∃ (j : Nat) (l : GridLayoutItem) (s : Item), (sortRowMajor (⟨[⟨"B", 0, 0, 1, 2⟩, ⟨"A", 1, 0, 1, 2⟩], 2, 2⟩ : GridLayout).items)[j]? = some l ∧
        [({ id := "A" } : Item), { id := "B" }][j]? = some s ∧ s.id ≠ l.id) →
      (∀ k < divergeIdx (sortRowMajor (⟨[⟨"B", 0, 0, 1, 2⟩, ⟨"A", 1, 0, 1, 2⟩], 2, 2⟩ : GridLayout).items)
          [({ id := "A" } : Item), { id := "B" }],
        ∃ (l : GridLayoutItem) (s : Item), (sortRowMajor (⟨[⟨"B", 0, 0, 1, 2⟩, ⟨"A", 1, 0, 1, 2⟩], 2, 2⟩ : GridLayout).items)[k]? = some l ∧
          [({ id := "A" } : Item), { id := "B" }][k]? = some s ∧ s.id = l.id) ∧
      ∃ (l : GridLayoutItem) (s : Item), (sortRowMajor (⟨[⟨"B", 0, 0, 1, 2⟩, ⟨"A", 1, 0, 1, 2⟩], 2, 2⟩ : GridLayout).items)[divergeIdx
          (sortRowMajor (⟨[⟨"B", 0, 0, 1, 2⟩, ⟨"A", 1, 0, 1, 2⟩], 2, 2⟩ : GridLayout).items)
          [({ id := "A" } : Item), { id := "B" }]]? = some l ∧
        [({ id := "A" } : Item), { id := "B" }][divergeIdx
          (sortRowMajor (⟨[⟨"B", 0, 0, 1, 2⟩, ⟨"A", 1, 0, 1, 2⟩], 2, 2⟩ : GridLayout).items)
          [({ id := "A" } : Item), { id := "B" }]]? = some s ∧ s.id ≠ l.id) ∧
      ((¬ ∃ (j : Nat) (l : GridLayoutItem) (s : Item), (sortRowMajor (⟨[⟨"B", 0, 0, 1, 2⟩, ⟨"A", 1, 0, 1, 2⟩], 2, 2⟩ : GridLayout).items)[j]? = some l ∧
          [({ id := "A" } : Item), { id := "B" }][j]? = some s ∧ s.id ≠ l.id) →
        divergeIdx (sortRowMajor (⟨[⟨"B", 0, 0, 1, 2⟩, ⟨"A", 1, 0, 1, 2⟩], 2, 2⟩ : GridLayout).items)
          [({ id := "A" } : Item), { id := "B" }] =
          (sortRowMajor (⟨[⟨"B", 0, 0, 1, 2⟩, ⟨"A", 1, 0, 1, 2⟩], 2, 2⟩ : GridLayout).items).length - 1) ∧
      (∀ j it, (transformedOrEmpty [({ id := "A" } : Item), { id := "B" }]
          ⟨[⟨"B", 0, 0, 1, 2⟩, ⟨"A", 1, 0, 1, 2⟩], 2, 2⟩)[j]? = some it →
        divergeIdx (sortRowMajor (⟨[⟨"B", 0, 0, 1, 2⟩, ⟨"A", 1, 0, 1, 2⟩], 2, 2⟩ : GridLayout).items)
          [({ id := "A" } : Item), { id := "B" }] ≤ j →
        ∀ k, k ≠ 2 → it.columnOffset k = none) ∧
      (∀ j it l src, (transformedOrEmpty [({ id := "A" } : Item), { id := "B" }]
          ⟨[⟨"B", 0, 0, 1, 2⟩, ⟨"A", 1, 0, 1, 2⟩], 2, 2⟩)[j]? = some it →
        j < divergeIdx (sortRowMajor (⟨[⟨"B", 0, 0, 1, 2⟩, ⟨"A", 1, 0, 1, 2⟩], 2, 2⟩ : GridLayout).items)
          [({ id := "A" } : Item), { id := "B" }] →
        (sortRowMajor (⟨[⟨"B", 0, 0, 1, 2⟩, ⟨"A", 1, 0, 1, 2⟩], 2, 2⟩ : GridLayout).items)[j]? = some l →
        getItemById [({ id := "A" } : Item), { id := "B" }] l.id = some src →
        ∀ k, k ≠ 2 → it.columnOffset k = src.columnOffset k)) :=
  ⟨by decide,
    claim4_theorem [{ id := "A" }, { id := "B" }]
      ⟨[⟨"B", 0, 0, 1, 2⟩, ⟨"A", 1, 0, 1, 2⟩], 2, 2⟩ (by decide)⟩

/-! ## Claim C3 -/

theorem foldl_interpretStep_map_id (columns : Nat) (items : List Item) :
    ∀ st : PackState,
      ((items.foldl (interpretStep columns) st).placed).map GridLayoutItem.id =
        st.placed.map GridLayoutItem.id ++ items.map Item.id := by
  induction items with
  | nil => intro st; simp
  | cons x xs ih =>
    intro st
    simp only [List.foldl_cons]
    rw [ih]
    simp only [interpretStep, List.map_append, List.map_cons, List.map_nil, List.append_assoc,
      List.nil_append, List.singleton_append]

theorem sortRowMajor_perm (l : List GridLayoutItem) : (sortRowMajor l).Perm l :=
  List.perm_insertionSort itemRel l

theorem sortRowMajor_idem (l : List GridLayoutItem) :
    sortRowMajor (sortRowMajor l) = sortRowMajor l :=
  List.Sorted.insertionSort_eq (List.sorted_insertionSort itemRel l)

theorem interpretItems_items_eq (items : List Item) (N : Nat) :
    (interpretItems items N).items =
      sortRowMajor ((items.foldl (interpretStep N) ⟨List.replicate N 0, 0, []⟩).placed) := rfl

theorem transformOne_id (columns rows d i : Nat) (l : GridLayoutItem) (src : Item) :
    (transformOne columns rows d i l src).id = src.id := by
  unfold transformOne
  by_cases hd : d ≤ i
  · rw [if_pos hd]
  · rw [if_neg hd]

/-- C3: for items carrying no explicit hints and any column count `N ≥ 1`,
`transformItems items (interpretItems items N)` succeeds and returns an item
list in exactly the row-major order of `interpretItems items N`. -/
theorem claim3_theorem (items : List Item) (N : Nat) (h1 : 1 ≤ N)
    (h2 : ∀ it ∈ items, it.columnSpan = emptyHint ∧ it.columnOffset = emptyHint ∧
      it.rowSpan = emptyHint) :
    ∃ out, transformItems items (interpretItems items N) = some out ∧
      out.map Item.id = (interpretItems items N).items.map GridLayoutItem.id := by
  have hSort : sortRowMajor (interpretItems items N).items = (interpretItems items N).items := by
    rw [interpretItems_items_eq]
    exact sortRowMajor_idem _
  have hids : List.Perm ((interpretItems items N).items.map GridLayoutItem.id) (items.map Item.id) := by
    rw [interpretItems_items_eq]
    have hperm := (sortRowMajor_perm
      ((items.foldl (interpretStep N) ⟨List.replicate N 0, 0, []⟩).placed)).map GridLayoutItem.id
    rw [foldl_interpretStep_map_id] at hperm
    simpa using hperm
  have hlen : (interpretItems items N).items.length = items.length := by
    have := hids.length_eq
    simpa using this
  have hlookup : ∀ l ∈ (interpretItems items N).items, ∃ s, getItemById items l.id = some s := by
    intro l hl
    have : l.id ∈ (interpretItems items N).items.map GridLayoutItem.id := List.mem_map_of_mem _ hl
    have : l.id ∈ items.map Item.id := hids.mem_iff.mp this
    obtain ⟨s, hs, hid⟩ := List.mem_map.mp this
    exact getItemById_isSome items l.id ⟨s, hs, hid⟩
  have hne : findChangeIdx (sortRowMajor (interpretItems items N).items) items 0 ≠ none := by
    rw [hSort]
    exact findChangeIdx_ne_none _ items 0 (by omega)
  obtain ⟨out, hout⟩ :
      ∃ out, transformItems items (interpretItems items N) = some out := by
    unfold transformItems
    cases hf : findChangeIdx (sortRowMajor (interpretItems items N).items) items 0 with
    | none => exact absurd hf hne
    | some idxOpt =>
      apply buildTransformed_isSome
      intro l hl
      rw [hSort] at hl
      exact hlookup l hl
  refine ⟨out, hout, ?_⟩
  have hsome : (transformItems items (interpretItems items N)).isSome = true := by
    rw [hout]; rfl
  have heq := transformItems_eq_buildTransformed items (interpretItems items N) hsome
  rw [hout] at heq
  have hget := buildTransformed_get? items (interpretItems items N).columns
    (interpretItems items N).rows
    (divergeIdx (sortRowMajor (interpretItems items N).items) items)
    (sortRowMajor (interpretItems items N).items) 0 out heq.symm
  apply List.ext_getElem?
  intro j
  rw [List.getElem?_map, List.getElem?_map]
  rw [hget j, hSort]
  cases hl : (interpretItems items N).items[j]? with
  | none => simp
  | some l =>
    obtain ⟨s, hs⟩ := hlookup l (by
      obtain ⟨hlt, heq'⟩ := List.getElem?_eq_some_iff.mp hl
      exact List.mem_iff_getElem.mpr ⟨j, hlt, heq'⟩)
    simp only [Option.some_bind, hs, Option.map_some']
    rw [transformOne_id]
    rw [getItemById_id items l.id s hs]

/-- C3, witness at a concrete input: two plain items on two columns. -/
theorem claim3_witness :
    (1 ≤ 2) ∧
    (∀ it ∈ [({ id := "A" } : Item), { id := "B" }], it.columnSpan = emptyHint ∧
      it.columnOffset = emptyHint ∧ it.rowSpan = emptyHint) ∧
    ∃ out, transformItems [({ id := "A" } : Item), { id := "B" }]
        (interpretItems [({ id := "A" } : Item), { id := "B" }] 2) = some out ∧
      out.map Item.id =
        (interpretItems [({ id := "A" } : Item), { id := "B" }] 2).items.map GridLayoutItem.id := by
  have hhints : ∀ it ∈ [({ id := "A" } : Item), { id := "B" }], it.columnSpan = emptyHint ∧
      it.columnOffset = emptyHint ∧ it.rowSpan = emptyHint := by
    intro it hit
    rcases List.mem_cons.mp hit with rfl | hit2
    · exact ⟨rfl, rfl, rfl⟩
    · rcases List.mem_cons.mp hit2 with rfl | h3
      · exact ⟨rfl, rfl, rfl⟩
      · cases h3
  exact ⟨by decide, hhints,
    claim3_theorem [({ id := "A" } : Item), { id := "B" }] 2 (by decide) hhints⟩

/-! ## Claim C9: helper lemmas about heights bookkeeping -/

theorem getRowOffset_zero (hs : List Nat) (o : Nat) : getRowOffset hs o 0 = 0 := rfl

theorem getRowOffset_succ (hs : List Nat) (o w : Nat) :
    getRowOffset hs o (w + 1) = max (getRowOffset hs o w) (hs.getD (o + w) 0) := by
  unfold getRowOffset
  rw [List.range_succ, List.foldl_append]
  rfl

theorem le_getRowOffset (hs : List Nat) (o w c : Nat) (h1 : o ≤ c) (h2 : c < o + w) :
    hs.getD c 0 ≤ getRowOffset hs o w := by
  induction w with
  | zero => omega
  | succ n ih =>
    rw [getRowOffset_succ]
    by_cases hc : c < o + n
    · exact Nat.le_trans (ih hc) (Nat.le_max_left _ _)
    · have : c = o + n := by omega
      subst this
      exact Nat.le_max_right _ _

theorem getRowOffset_le (hs : List Nat) (o w B : Nat)
    (h : ∀ c, o ≤ c → c < o + w → hs.getD c 0 ≤ B) : getRowOffset hs o w ≤ B := by
  induction w with
  | zero => exact Nat.zero_le B
  | succ n ih =>
    rw [getRowOffset_succ]
    exact Nat.max_le.mpr ⟨ih (fun c hc1 hc2 => h c hc1 (by omega)), h (o + n) (by omega) (by omega)⟩

theorem setRange_zero (hs : List Nat) (o v : Nat) : setRange hs o 0 v = hs := rfl

theorem setRange_succ (hs : List Nat) (o w v : Nat) :
    setRange hs o (w + 1) v = (setRange hs o w v).set (o + w) v := by
  unfold setRange
  rw [List.range_succ, List.foldl_append]
  rfl

theorem setRange_length (hs : List Nat) (o w v : Nat) :
    (setRange hs o w v).length = hs.length := by
  induction w with
  | zero => rfl
  | succ n ih => rw [setRange_succ, List.length_set, ih]

theorem setRange_getD (hs : List Nat) (o w v c : Nat) :
    (setRange hs o w v).getD c 0 =
      if o ≤ c ∧ c < o + w ∧ c < hs.length then v else hs.getD c 0 := by
  induction w with
  | zero =>
    rw [setRange_zero, if_neg (by omega)]
  | succ n ih =>
    rw [setRange_succ, List.getD_eq_getElem?_getD, List.getElem?_set]
    by_cases hc : o + n = c
    · rw [if_pos hc]
      by_cases hlen : o + n < (setRange hs o n v).length
      · rw [if_pos hlen]
        rw [setRange_length] at hlen
        simp only [Option.getD_some]
        rw [if_pos ⟨by omega, by omega, by omega⟩]
      · rw [if_neg hlen]
        rw [setRange_length] at hlen
        simp only [Option.getD_none]
        rw [if_neg (by omega)]
        rw [List.getD_eq_getElem?_getD, List.getElem?_eq_none (by omega)]
        rfl
    · rw [if_neg hc, ← List.getD_eq_getElem?_getD, ih]
      by_cases hin : o ≤ c ∧ c < o + n ∧ c < hs.length
      · rw [if_pos hin, if_pos ⟨hin.1, by omega, hin.2.2⟩]
      · rw [if_neg hin, if_neg (fun hin2 => hin ⟨hin2.1, by omega, hin2.2.2⟩)]

theorem foldr_max_append_singleton (l : List Nat) (a : Nat) :
    ((l ++ [a]).foldr max 0) = max (l.foldr max 0) a := by
  induction l with
  | nil => simp [Nat.max_comm]
  | cons x xs ih =>
    simp only [List.cons_append, List.foldr_cons, ih, Nat.max_assoc]

theorem foldr_max_perm {l l' : List Nat} (h : l.Perm l') :
    l.foldr max 0 = l'.foldr max 0 := by
  induction h with
  | nil => rfl
  | cons x _ ih => simp only [List.foldr_cons, ih]
  | swap x y l =>
    simp only [List.foldr_cons]
    rw [← Nat.max_assoc, ← Nat.max_assoc, Nat.max_comm x y]
  | trans _ _ ih1 ih2 => rw [ih1, ih2]

/-- Two rectangles share a grid cell. -/
def sharesCell (a b : GridLayoutItem) : Prop :=
  ∃ col row, coversCell col row a = true ∧ coversCell col row b = true

theorem sharesCell_symm : Symmetric (fun a b => ¬ sharesCell a b) := by
  intro a b hab ⟨col, row, h1, h2⟩
  exact hab ⟨col, row, h2, h1⟩

/-- The invariant maintained by the placement loop of `interpretItems`:
heights list of the right length, every placed rectangle within the columns
with positive size and fully below the recorded column heights, pairwise
cell-disjoint rectangles, and the maximum column height equal to the maximum
bottom row over all placed rectangles. -/
def stInv (N : Nat) (st : PackState) : Prop :=
  st.columnHeights.length = N ∧
  (∀ it ∈ st.placed, it.x + it.width ≤ N ∧ 1 ≤ it.width ∧ 1 ≤ it.height ∧
    ∀ c, it.x ≤ c → c < it.x + it.width → it.y + it.height ≤ st.columnHeights.getD c 0) ∧
  List.Pairwise (fun a b => ¬ sharesCell a b) st.placed ∧
  getRowOffset st.columnHeights 0 N = (st.placed.map (fun it => it.y + it.height)).foldr max 0

theorem one_le_getColumnSpan (columns : Nat) (item : Item) : 1 ≤ getColumnSpan columns item := by
  unfold getColumnSpan getItemMinColumnSpan MIN_COL_SPAN
  omega

theorem one_le_getRowSpan (columns : Nat) (item : Item) : 1 ≤ getRowSpan columns item := by
  unfold getRowSpan getItemMinRowSpan MIN_ROW_SPAN
  omega

theorem getColumnSpan_le (item : Item) (N : Nat) (hhint : item.columnSpan N = none)
    (hmin : getItemMinColumnSpan item N ≤ N) : getColumnSpan N item ≤ N := by
  unfold getColumnSpan
  rw [hhint]
  simp only [Option.getD_none]
  unfold getItemDefaultColumnSpan
  omega

theorem findOptimalColumnOffset_add_le (hs : List Nat) (N cur w rsp : Nat) (h : w ≤ N) :
    findOptimalColumnOffset hs N cur w rsp + w ≤ N := by
  unfold findOptimalColumnOffset
  cases h1 : scanFit hs N w rsp cur with
  | some o => exact ((scanFit_some_iff hs N w rsp cur o).mp h1).2.1.1
  | none =>
    cases h2 : scanFit hs N w rsp 0 with
    | some o => exact ((scanFit_some_iff hs N w rsp 0 o).mp h2).2.1.1
    | none =>
      show (if cur + w ≤ N then cur else 0) + w ≤ N
      by_cases hc : cur + w ≤ N
      · rw [if_pos hc]; exact hc
      · rw [if_neg hc]; omega

theorem interpretStep_eq (N : Nat) (st : PackState) (item : Item) :
    interpretStep N st item =
      ⟨setRange st.columnHeights (getColumnOffset N st.columnHeights item st.cursor)
          (getColumnSpan N item)
          (getRowOffset st.columnHeights (getColumnOffset N st.columnHeights item st.cursor)
              (getColumnSpan N item) + getRowSpan N item),
        getColumnOffset N st.columnHeights item st.cursor + getColumnSpan N item,
        st.placed ++ [⟨item.id, getColumnOffset N st.columnHeights item st.cursor,
          getRowOffset st.columnHeights (getColumnOffset N st.columnHeights item st.cursor)
            (getColumnSpan N item), getColumnSpan N item, getRowSpan N item⟩]⟩ := rfl

theorem interpretStep_inv (N : Nat) (st : PackState) (item : Item)
    (hInv : stInv N st)
    (hoff : item.columnOffset N = none)
    (hw : getColumnSpan N item ≤ N) :
    stInv N (interpretStep N st item) := by
  obtain ⟨hlen, hitems, hpair, hmax⟩ := hInv
  have hw1 : 1 ≤ getColumnSpan N item := one_le_getColumnSpan N item
  have hr1 : 1 ≤ getRowSpan N item := one_le_getRowSpan N item
  have hodef : getColumnOffset N st.columnHeights item st.cursor =
      findOptimalColumnOffset st.columnHeights N st.cursor (getColumnSpan N item)
        (getRowSpan N item) := by
    unfold getColumnOffset
    rw [hoff]
    rfl
  have ho : getColumnOffset N st.columnHeights item st.cursor + getColumnSpan N item ≤ N := by
    rw [hodef]
    exact findOptimalColumnOffset_add_le st.columnHeights N st.cursor _ _ hw
  rw [interpretStep_eq]
  set w := getColumnSpan N item with hwdef
  set rs := getRowSpan N item with hrdef
  set o := getColumnOffset N st.columnHeights item st.cursor with hodef2
  set y := getRowOffset st.columnHeights o w with hydef
  set hs' := setRange st.columnHeights o w (y + rs) with hsdef
  have hspan : ∀ c, o ≤ c → c < o + w → hs'.getD c 0 = y + rs := by
    intro c h1 h2
    rw [hsdef, setRange_getD, if_pos ⟨h1, h2, by omega⟩]
  have hmono : ∀ c, st.columnHeights.getD c 0 ≤ hs'.getD c 0 := by
    intro c
    rw [hsdef, setRange_getD]
    by_cases hc : o ≤ c ∧ c < o + w ∧ c < st.columnHeights.length
    · rw [if_pos hc]
      have := le_getRowOffset st.columnHeights o w c hc.1 hc.2.1
      omega
    · rw [if_neg hc]
  have hlen' : hs'.length = N := by rw [hsdef, setRange_length, hlen]
  have hmax' : getRowOffset hs' 0 N = max (getRowOffset st.columnHeights 0 N) (y + rs) := by
    apply Nat.le_antisymm
    · apply getRowOffset_le
      intro c h1 h2
      rw [hsdef, setRange_getD]
      by_cases hc : o ≤ c ∧ c < o + w ∧ c < st.columnHeights.length
      · rw [if_pos hc]; omega
      · rw [if_neg hc]
        have := le_getRowOffset st.columnHeights 0 N c (Nat.zero_le _) (by omega)
        omega
    · apply Nat.max_le.mpr
      constructor
      · apply getRowOffset_le
        intro c h1 h2
        exact Nat.le_trans (hmono c) (le_getRowOffset hs' 0 N c (Nat.zero_le _) (by omega))
      · rw [← hspan o (Nat.le_refl o) (by omega)]
        exact le_getRowOffset hs' 0 N o (Nat.zero_le _) (by omega)
  refine ⟨hlen', ?_, ?_, ?_⟩
  · intro it hit
    rcases List.mem_append.mp hit with hmem | hnew
    · obtain ⟨hb, hw', hh', hcols⟩ := hitems it hmem
      exact ⟨hb, hw', hh', fun c h1 h2 => Nat.le_trans (hcols c h1 h2) (hmono c)⟩
    · rw [List.mem_singleton] at hnew
      subst hnew
      refine ⟨ho, hw1, hr1, fun c h1 h2 => ?_⟩
      rw [hspan c h1 h2]
  · rw [List.pairwise_append]
    refine ⟨hpair, List.pairwise_singleton _ _, ?_⟩
    intro a ha b hb
    rw [List.mem_singleton] at hb
    subst hb
    rintro ⟨col, row, hca, hcb⟩
    rw [coversCell, decide_eq_true_iff] at hca hcb
    obtain ⟨hb', -, -, hcols⟩ := hitems a ha
    have h1 : a.y + a.height ≤ st.columnHeights.getD col 0 := hcols col hca.1 hca.2.1
    have h2 : st.columnHeights.getD col 0 ≤ y :=
      le_getRowOffset st.columnHeights o w col hcb.1 hcb.2.1
    simp only at hcb
    omega
  · rw [List.map_append, List.map_cons, List.map_nil, foldr_max_append_singleton, ← hmax, hmax']

theorem stInv_init (N : Nat) : stInv N ⟨List.replicate N 0, 0, []⟩ := by
  refine ⟨List.length_replicate N 0, by simp, List.Pairwise.nil, ?_⟩
  simp only [List.map_nil, List.foldr_nil]
  apply Nat.le_antisymm
  · apply getRowOffset_le
    intro c h1 h2
    rw [List.getD_eq_getElem?_getD, List.getElem?_replicate]
    split <;> simp
  · exact Nat.zero_le _

theorem foldl_interpretStep_inv (N : Nat) (items : List Item)
    (hitems : ∀ it ∈ items, it.columnOffset N = none ∧ getColumnSpan N it ≤ N) :
    ∀ st, stInv N st → stInv N (items.foldl (interpretStep N) st) := by
  induction items with
  | nil => intro st h; exact h
  | cons x xs ih =>
    intro st h
    simp only [List.foldl_cons]
    have hx := hitems x (List.mem_cons_self x xs)
    exact ih (fun it hit => hitems it (List.mem_cons_of_mem x hit)) _
      (interpretStep_inv N st x h hx.1 hx.2)

/-- C9, counterexample: an item with no explicit hints but whose definition
requests a minimum column span of 3 at column count 1 is placed with width 3
on a 1-column grid — outside the columns, violating the in-bounds
invariant. -/
def c9Item : Item :=
  { id := "A",
    definition := some { minColumnSpan := some fun k => if k = 1 then some 3 else none } }

theorem claim9_counterexample :
    (c9Item.columnSpan = emptyHint ∧ c9Item.columnOffset = emptyHint ∧
      c9Item.rowSpan = emptyHint) ∧
    MIN_COL_SPAN ≤ 1 ∧
    ((interpretItems [c9Item] 1).items.map fun it => (it.x, it.width)) = [(0, 3)] ∧
    ¬ ((0 : Nat) + 3 ≤ 1) :=
  ⟨⟨rfl, rfl, rfl⟩, by decide, by decide, by decide⟩

/-- C9, amended: for items with no explicit hints whose minimum column span
for `N` does not exceed `N`, and any column count `N` at least the minimum
column span constant, the grid returned by `interpretItems` satisfies the
grid invariants: no two rectangles share a cell, every rectangle lies within
the columns with positive width and height, and the returned `rows` equals
the maximum bottom row over all items (0 for the empty list). -/
theorem claim9_theorem (items : List Item) (N : Nat)
    (h1 : MIN_COL_SPAN ≤ N)
    (h2 : ∀ it ∈ items, it.columnSpan = emptyHint ∧ it.columnOffset = emptyHint ∧
      it.rowSpan = emptyHint)
    (h3 : ∀ it ∈ items, getItemMinColumnSpan it N ≤ N) :
    (∀ it ∈ (interpretItems items N).items,
      it.x + it.width ≤ N ∧ 1 ≤ it.width ∧ 1 ≤ it.height) ∧
    List.Pairwise (fun a b => ¬ sharesCell a b) (interpretItems items N).items ∧
    (interpretItems items N).rows =
      ((interpretItems items N).items.map (fun it => it.y + it.height)).foldr max 0 := by
  have hitems : ∀ it ∈ items, it.columnOffset N = none ∧ getColumnSpan N it ≤ N := by
    intro it hit
    obtain ⟨hcs, hco, -⟩ := h2 it hit
    refine ⟨by rw [hco]; rfl, getColumnSpan_le it N (by rw [hcs]; rfl) (h3 it hit)⟩
  have hinv := foldl_interpretStep_inv N items hitems _ (stInv_init N)
  obtain ⟨-, hprops, hpair, hmax⟩ := hinv
  have hperm := sortRowMajor_perm ((items.foldl (interpretStep N) ⟨List.replicate N 0, 0, []⟩).placed)
  refine ⟨?_, ?_, ?_⟩
  · intro it hit
    rw [interpretItems_items_eq] at hit
    obtain ⟨hb, hw, hh, -⟩ := hprops it (hperm.mem_iff.mp hit)
    exact ⟨hb, hw, hh⟩
  · rw [interpretItems_items_eq]
    exact (hperm.pairwise_iff (fun h => sharesCell_symm h)).mpr hpair
  · have hrows : (interpretItems items N).rows =
        getRowOffset ((items.foldl (interpretStep N) ⟨List.replicate N 0, 0, []⟩).columnHeights)
          0 N := rfl
    rw [hrows, hmax, interpretItems_items_eq]
    exact foldr_max_perm (hperm.map (fun it => it.y + it.height)).symm

/-- C9, witness for the amended theorem: one plain item on one column. -/
theorem claim9_witness :
    (MIN_COL_SPAN ≤ 1) ∧
    (∀ it ∈ [({ id := "A" } : Item)], it.columnSpan = emptyHint ∧
      it.columnOffset = emptyHint ∧ it.rowSpan = emptyHint) ∧
    (∀ it ∈ [({ id := "A" } : Item)], getItemMinColumnSpan it 1 ≤ 1) ∧
    ((∀ it ∈ (interpretItems [({ id := "A" } : Item)] 1).items,
      it.x + it.width ≤ 1 ∧ 1 ≤ it.width ∧ 1 ≤ it.height) ∧
    List.Pairwise (fun a b => ¬ sharesCell a b) (interpretItems [({ id := "A" } : Item)] 1).items ∧
    (interpretItems [({ id := "A" } : Item)] 1).rows =
      ((interpretItems [({ id := "A" } : Item)] 1).items.map
        (fun it => it.y + it.height)).foldr max 0) := by
  have hhints : ∀ it ∈ [({ id := "A" } : Item)], it.columnSpan = emptyHint ∧
      it.columnOffset = emptyHint ∧ it.rowSpan = emptyHint := by
    intro it hit
    rcases List.mem_singleton.mp hit with rfl
    exact ⟨rfl, rfl, rfl⟩
  have hmin : ∀ it ∈ [({ id := "A" } : Item)], getItemMinColumnSpan it 1 ≤ 1 := by
    intro it hit
    rcases List.mem_singleton.mp hit with rfl
    decide
  exact ⟨by decide, hhints, hmin,
    claim9_theorem [({ id := "A" } : Item)] 1 (by decide) hhints hmin⟩

/-! ## The interactive LayoutEngine, modelled from the specification

The engine sources are not among the analyzed files (only their unit tests
are), so the grid model, path normalizer and the move/resize operations below
are modelled from the specification. -/

/-- Modelled from the spec: an integer grid position (column, row). -/
structure Position where
  x : Nat
  y : Nat
deriving DecidableEq, Repr

/-- Modelled from the spec: the engine's grid — a set of rectangles (reusing
the rectangle record of the layout utilities) plus a column count; rows are
derived and unbounded. -/
structure Grid where
  items : List GridLayoutItem
  columns : Nat
deriving DecidableEq, Repr

/-- Modelled from the spec: the three causes `InvalidGrid` distinguishes. -/
inductive InvalidGrid where
  | itemsOutsideBoundaries
  | itemsOverlap
  | itemsInvalidSize
deriving DecidableEq, Repr

/-- Two rectangles overlap (share at least one cell). -/
def rectsOverlap (a b : GridLayoutItem) : Bool :=
  decide (a.x < b.x + b.width) && decide (b.x < a.x + a.width) &&
    decide (a.y < b.y + b.height) && decide (b.y < a.y + a.height)

/-- Some pair of distinct list positions holds overlapping rectangles. -/
def anyPairOverlap : List GridLayoutItem → Bool
  | [] => false
  | r :: rs => rs.any (rectsOverlap r) || anyPairOverlap rs

/-- The rectangle lies inside the columns. -/
def inBounds (columns : Nat) (r : GridLayoutItem) : Bool :=
  decide (r.x + r.width ≤ columns)

/-- The rectangle has positive width and height. -/
def validSize (r : GridLayoutItem) : Bool :=
  decide (1 ≤ r.width) && decide (1 ≤ r.height)

/-- Modelled from the spec: `LayoutEngine` construction validates the grid,
distinguishing three causes in priority order — rectangles outside the
boundaries first, overlapping rectangles second, rectangles of non-positive
size third — and reports the first violation found; on success the grid is
built whole. -/
def construct (items : List GridLayoutItem) (columns : Nat) : Except InvalidGrid Grid :=
  if ¬ items.all (inBounds columns) then .error .itemsOutsideBoundaries
  else if anyPairOverlap items then .error .itemsOverlap
  else if ¬ items.all validSize then .error .itemsInvalidSize
  else .ok ⟨items, columns⟩

/-- Modelled from the spec: the operation-level error kinds of the engine. -/
inductive EngineError where
  | itemNotFound
  | outOfBounds
  | invalidResize
deriving DecidableEq, Repr

/-- Modelled from the spec: one entry of a `LayoutShift`. -/
inductive ShiftOp where
  | move (itemId : String) (x y width height : Nat)
  | resizeItem (itemId : String) (x y width height : Nat)
deriving DecidableEq, Repr

/-- Modelled from the spec: the layout shift produced by one operation. -/
structure LayoutShift where
  moves : List ShiftOp
deriving DecidableEq, Repr

/-- The committed grid after an operation: the new snapshot on success, the
unchanged previous snapshot when the operation failed. -/
def committedAfter (g : Grid) (res : Except EngineError (Grid × LayoutShift)) : Grid :=
  match res with
  | .ok (g', _) => g'
  | .error _ => g

/-- Look up an item's rectangle in the grid. -/
def findRect (g : Grid) (itemId : String) : Option GridLayoutItem :=
  g.items.find? (fun it => it.id == itemId)

/-- The unit steps strictly between `a` (exclusive) and `b` (inclusive),
walking by one per step. -/
def natSeq (a b : Nat) : List Nat :=
  if a ≤ b then (List.range (b - a)).map (fun i => a + 1 + i)
  else (List.range (a - b)).map (fun i => a - 1 - i)

/-- Modelled from the spec: fill the gap between two positions with unit
steps along an L-shaped route, horizontal leg first. -/
def routeSteps (a b : Position) : List Position :=
  (natSeq a.x b.x).map (fun x => ⟨x, a.y⟩) ++ (natSeq a.y b.y).map (fun y => ⟨b.x, y⟩)

/-- Modelled from the spec: append one position to the accepted path; when
the position was already visited, splice the loop out by truncating the
accepted path back to (and including) its first occurrence. -/
def pushPos (acc : List Position) (p : Position) : List Position :=
  match acc.findIdx? (fun q => decide (q = p)) with
  | some i => acc.take (i + 1)
  | none => acc ++ [p]

/-- Modelled from the spec: process one raw waypoint — fill the gap from the
end of the accepted path with unit steps and push each in turn. -/
def pushWaypoint (start : Position) (acc : List Position) (p : Position) : List Position :=
  (routeSteps (acc.getLastD start) p).foldl pushPos acc

/-- Modelled from the spec: the Path Normalizer — collapse a raw waypoint
sequence (anchored at `start`) into a duplicate-free sequence of unit steps,
splicing out loops. -/
def normalizePath (start : Position) (waypoints : List Position) : List Position :=
  waypoints.foldl (pushWaypoint start) [start]

/-- Modelled from the spec: a displacement direction. -/
inductive Dir where
  | left
  | right
  | up
  | down
deriving DecidableEq, Repr

/-- The unit-step direction from `a` to `b`, if any. -/
def dirOf (a b : Position) : Option Dir :=
  if b.x = a.x + 1 ∧ b.y = a.y then some .right
  else if a.x = b.x + 1 ∧ b.y = a.y then some .left
  else if b.y = a.y + 1 ∧ b.x = a.x then some .down
  else if a.y = b.y + 1 ∧ b.x = a.x then some .up
  else none

/-- Move a rectangle one cell in a direction; `none` when that would leave
the grid (columns to the sides, row 0 upward; downward is unbounded). -/
def shiftRect (columns : Nat) (d : Dir) (r : GridLayoutItem) : Option GridLayoutItem :=
  match d with
  | .right => if r.x + 1 + r.width ≤ columns then some { r with x := r.x + 1 } else none
  | .left => if 1 ≤ r.x then some { r with x := r.x - 1 } else none
  | .down => some { r with y := r.y + 1 }
  | .up => if 1 ≤ r.y then some { r with y := r.y - 1 } else none

/-- Replace the rectangle with the matching id. -/
def replaceRect (g : Grid) (r : GridLayoutItem) : Grid :=
  ⟨g.items.map (fun it => if it.id == r.id then r else it), g.columns⟩

/-- Modelled from the spec: the cascading displacement worklist — process a
queue of items that must move one cell in direction `d`, with a visited set
keyed by item id so that each item is displaced at most once per step;
occupants of newly covered cells are enqueued; `none` when the cascade would
push any item outside the grid (the step is rejected).  The fuel bounds the
number of worklist iterations. -/
def cascadeMove (d : Dir) : Nat → Grid → List String → List String → Option (Grid × List String)
  | _, g, [], _ => some (g, [])
  | 0, _, _ :: _, _ => none
  | fuel + 1, g, idd :: queue, visited =>
    if idd ∈ visited then cascadeMove d fuel g queue visited
    else
      match findRect g idd with
      | none => cascadeMove d fuel g queue visited
      | some r =>
        match shiftRect g.columns d r with
        | none => none
        | some r' =>
          let g' := replaceRect g r'
          let newly := (g'.items.filter fun it =>
            it.id != r'.id && rectsOverlap it r' && decide (it.id ∉ visited)).map (·.id)
          match cascadeMove d fuel g' (queue ++ newly) (idd :: visited) with
          | none => none
          | some (g'', moved) => some (g'', idd :: moved)

/-- Modelled from the spec: relocate the dragged item by one cell toward
`step`, cascading displacement to occupants; the returned operations are one
`MOVE` entry per item moved during this step. -/
def applyMoveStep (g : Grid) (itemId : String) (step : Position) : Option (Grid × List ShiftOp) :=
  match findRect g itemId with
  | none => none
  | some r =>
    match dirOf ⟨r.x, r.y⟩ step with
    | none => some (g, [])
    | some d =>
      match cascadeMove d ((g.items.length + 1) * (g.items.length + 1)) g [itemId] [] with
      | none => none
      | some (g', movedIds) =>
        some (g', movedIds.filterMap fun idd =>
          (findRect g' idd).map fun it => ShiftOp.move idd it.x it.y it.width it.height)

/-- Modelled from the spec: replay the unit steps of a move; a rejected step
keeps the effects of previous steps and drops itself and all later steps. -/
def replaySteps (g : Grid) (itemId : String) : List Position → Grid × List ShiftOp
  | [] => (g, [])
  | s :: ss =>
    match applyMoveStep g itemId s with
    | none => (g, [])
    | some (g', ops) =>
      let res := replaySteps g' itemId ss
      (res.1, ops ++ res.2)

/-- Modelled from the spec: the `move` operation — fails with `ItemNotFound`
for an unknown id, normalizes the path (anchored at the item's position),
fails with `OutOfBounds` when any normalized step target lies outside the
grid, then replays the steps one unit move at a time. -/
def moveEngine (g : Grid) (itemId : String) (path : List Position) :
    Except EngineError (Grid × LayoutShift) :=
  match findRect g itemId with
  | none => .error .itemNotFound
  | some r =>
    let steps := (normalizePath ⟨r.x, r.y⟩ path).drop 1
    if steps.any (fun s => decide (g.columns < s.x + r.width)) then .error .outOfBounds
    else
      let res := replaySteps g itemId steps
      .ok (res.1, ⟨res.2⟩)

/-- Modelled from the spec: apply one resize step (the new corner position),
displacing occupants of newly covered cells when the item grows. -/
def applyResizeStep (g : Grid) (itemId : String) (corner : Position) : Option (Grid × List ShiftOp) :=
  match findRect g itemId with
  | none => none
  | some r =>
    let r' : GridLayoutItem := { r with width := corner.x - r.x, height := corner.y - r.y }
    let g' := replaceRect g r'
    let entry := ShiftOp.resizeItem itemId r'.x r'.y r'.width r'.height
    if r'.width ≤ r.width ∧ r'.height ≤ r.height then
      some (g', [entry])
    else
      let d : Dir := if r.width < r'.width then .right else .down
      let newly := (g'.items.filter fun it => it.id != itemId && rectsOverlap it r').map (·.id)
      match cascadeMove d ((g.items.length + 1) * (g.items.length + 1)) g' newly [itemId] with
      | none => none
      | some (g'', movedIds) =>
        some (g'', entry :: movedIds.filterMap fun idd =>
          (findRect g'' idd).map fun it => ShiftOp.move idd it.x it.y it.width it.height)

/-- Modelled from the spec: replay the unit steps of a resize. -/
def replayResizeSteps (g : Grid) (itemId : String) : List Position → Grid × List ShiftOp
  | [] => (g, [])
  | s :: ss =>
    match applyResizeStep g itemId s with
    | none => (g, [])
    | some (g', ops) =>
      let res := replayResizeSteps g' itemId ss
      (res.1, ops ++ res.2)

/-- Modelled from the spec: the `resize` operation — fails with
`ItemNotFound` for an unknown id; the path holds successive positions of the
dragged corner, normalized from the item's current bottom-right corner; fails
with `InvalidResize` when any step would shrink the item's width or height to
zero, with `OutOfBounds` when any step leaves the columns; otherwise applies
the steps one at a time. -/
def resizeEngine (g : Grid) (itemId : String) (path : List Position) :
    Except EngineError (Grid × LayoutShift) :=
  match findRect g itemId with
  | none => .error .itemNotFound
  | some r =>
    let steps := (normalizePath ⟨r.x + r.width, r.y + r.height⟩ path).drop 1
    if steps.any (fun s => decide (s.x ≤ r.x) || decide (s.y ≤ r.y)) then
      .error .invalidResize
    else if steps.any (fun s => decide (g.columns < s.x)) then .error .outOfBounds
    else
      let res := replayResizeSteps g itemId steps
      .ok (res.1, ⟨res.2⟩)

/-! ## Claim C6 -/

theorem anyPairOverlap_iff (l : List GridLayoutItem) :
    anyPairOverlap l = true ↔ ¬ l.Pairwise (fun a b => rectsOverlap a b = false) := by
  induction l with
  | nil => simp [anyPairOverlap]
  | cons r rs ih =>
    simp only [anyPairOverlap, Bool.or_eq_true, List.any_eq_true, ih, List.pairwise_cons]
    constructor
    · rintro (⟨b, hb, hover⟩ | hnp)
      · rintro ⟨hall, -⟩
        rw [hall b hb] at hover
        cases hover
      · rintro ⟨-, hp⟩
        exact hnp hp
    · intro hn
      by_cases hall : ∀ a ∈ rs, rectsOverlap r a = false
      · right
        intro hp
        exact hn ⟨hall, hp⟩
      · left
        push_neg at hall
        obtain ⟨b, hb, hne⟩ := hall
        exact ⟨b, hb, by simpa using hne⟩

/-- C6: constructing a grid fails with an `InvalidGrid` error distinguishing
exactly three causes, checked in priority order — boundary violations first,
overlaps second, non-positive sizes third — reporting the first violation
found; on success the grid is built whole from the given rectangles and
column count (never partially). -/
theorem claim6_theorem (items : List GridLayoutItem) (columns : Nat) :
    construct items columns =
      if ∃ r ∈ items, ¬ r.x + r.width ≤ columns then
        Except.error InvalidGrid.itemsOutsideBoundaries
      else if ¬ items.Pairwise (fun a b => rectsOverlap a b = false) then
        Except.error InvalidGrid.itemsOverlap
      else if ∃ r ∈ items, ¬ (1 ≤ r.width ∧ 1 ≤ r.height) then
        Except.error InvalidGrid.itemsInvalidSize
      else Except.ok ⟨items, columns⟩ := by
  have h1 : (items.all (inBounds columns) = true) ↔ ∀ r ∈ items, r.x + r.width ≤ columns := by
    simp [List.all_eq_true, inBounds]
  have h3 : (items.all validSize = true) ↔ ∀ r ∈ items, 1 ≤ r.width ∧ 1 ≤ r.height := by
    simp [List.all_eq_true, validSize]
  have h2 := anyPairOverlap_iff items
  unfold construct
  by_cases c1 : ∃ r ∈ items, ¬ r.x + r.width ≤ columns
  · rw [if_pos c1, if_pos]
    intro hall
    obtain ⟨r, hr, hn⟩ := c1
    exact hn (h1.mp hall r hr)
  · rw [if_neg c1, if_neg (by
      intro hnall
      apply c1
      by_contra hne
      push_neg at hne
      exact hnall (h1.mpr hne))]
    by_cases c2 : ¬ items.Pairwise (fun a b => rectsOverlap a b = false)
    · rw [if_pos c2, if_pos (h2.mpr c2)]
    · rw [if_neg c2, if_neg (fun hb => c2 (h2.mp hb))]
      by_cases c3 : ∃ r ∈ items, ¬ (1 ≤ r.width ∧ 1 ≤ r.height)
      · rw [if_pos c3, if_pos]
        intro hall
        obtain ⟨r, hr, hn⟩ := c3
        exact hn (h3.mp hall r hr)
      · rw [if_neg c3, if_neg (by
          intro hnall
          apply c3
          by_contra hne
          push_neg at hne
          exact hnall (h3.mpr fun r hr => ⟨(hne r hr).1, (hne r hr).2⟩))]

/-! ## Claim C7 -/

/-- C7: if any normalized step of a resize would shrink the target item's
width or height to zero, the operation fails with `InvalidResize` and the
committed grid snapshot is unchanged. -/
theorem claim7_theorem (g : Grid) (itemId : String) (path : List Position) (r : GridLayoutItem)
    (hfind : findRect g itemId = some r)
    (hzero : ((normalizePath ⟨r.x + r.width, r.y + r.height⟩ path).drop 1).any
      (fun s => decide (s.x ≤ r.x) || decide (s.y ≤ r.y)) = true) :
    resizeEngine g itemId path = .error .invalidResize ∧
      committedAfter g (resizeEngine g itemId path) = g := by
  have hval : resizeEngine g itemId path = .error .invalidResize := by
    simp only [resizeEngine, hfind, hzero, if_true]
  exact ⟨hval, by rw [committedAfter.eq_def, hval]⟩

/-- C7, witness: the test scenario — a 2×2 item filling a 2-column grid,
resize path dragging the corner to the left edge. -/
def c7Grid : Grid := ⟨[⟨"A", 0, 0, 2, 2⟩], 2⟩

theorem claim7_witness :
    (findRect c7Grid "A" = some ⟨"A", 0, 0, 2, 2⟩) ∧
    (((normalizePath ⟨2, 2⟩ [⟨1, 2⟩, ⟨0, 2⟩]).drop 1).any
      (fun s => decide (s.x ≤ 0) || decide (s.y ≤ 0)) = true) ∧
    (resizeEngine c7Grid "A" [⟨1, 2⟩, ⟨0, 2⟩] = .error .invalidResize ∧
      committedAfter c7Grid (resizeEngine c7Grid "A" [⟨1, 2⟩, ⟨0, 2⟩]) = c7Grid) :=
  ⟨by decide, by decide,
    claim7_theorem c7Grid "A" [⟨1, 2⟩, ⟨0, 2⟩] ⟨"A", 0, 0, 2, 2⟩ (by decide) (by decide)⟩

/-! ## Claim C8: the normalizer collapses a path returning to its start -/

theorem natSeq_getLast (a b : Nat) (h : a ≠ b) : (natSeq a b).getLast? = some b := by
  unfold natSeq
  by_cases hle : a ≤ b
  · rw [if_pos hle, List.getLast?_map]
    have hb : b - a ≠ 0 := by omega
    obtain ⟨m, hm⟩ := Nat.exists_eq_succ_of_ne_zero hb
    rw [hm, List.range_succ, List.getLast?_concat]
    simp only [Option.map_some']
    congr 1
    omega
  · rw [if_neg hle, List.getLast?_map]
    have hb : a - b ≠ 0 := by omega
    obtain ⟨m, hm⟩ := Nat.exists_eq_succ_of_ne_zero hb
    rw [hm, List.range_succ, List.getLast?_concat]
    simp only [Option.map_some']
    congr 1
    omega

theorem natSeq_eq_nil_iff (a b : Nat) : natSeq a b = [] ↔ a = b := by
  unfold natSeq
  by_cases hle : a ≤ b
  · rw [if_pos hle]
    constructor
    · intro h
      have := congrArg List.length h
      simp only [List.length_map, List.length_range, List.length_nil] at this
      omega
    · intro h
      subst h
      simp
  · rw [if_neg hle]
    constructor
    · intro h
      have := congrArg List.length h
      simp only [List.length_map, List.length_range, List.length_nil] at this
      omega
    · intro h
      omega

theorem routeSteps_eq_nil_iff (a b : Position) : routeSteps a b = [] ↔ a = b := by
  unfold routeSteps
  rw [List.append_eq_nil]
  constructor
  · rintro ⟨h1, h2⟩
    rw [List.map_eq_nil_iff] at h1 h2
    have hx := (natSeq_eq_nil_iff _ _).mp h1
    have hy := (natSeq_eq_nil_iff _ _).mp h2
    cases a; cases b
    simp only [Position.mk.injEq]
    exact ⟨hx, hy⟩
  · rintro rfl
    refine ⟨?_, ?_⟩ <;> rw [List.map_eq_nil_iff] <;> exact (natSeq_eq_nil_iff _ _).mpr rfl

theorem routeSteps_getLast (a b : Position) (h : routeSteps a b ≠ []) :
    (routeSteps a b).getLast? = some b := by
  by_cases hy : a.y = b.y
  · have h2 : natSeq a.y b.y = [] := (natSeq_eq_nil_iff _ _).mpr hy
    unfold routeSteps at h ⊢
    rw [h2] at h ⊢
    simp only [List.map_nil, List.append_nil] at h ⊢
    have hx : a.x ≠ b.x := by
      intro hxx
      exact h (by rw [(natSeq_eq_nil_iff _ _).mpr hxx, List.map_nil])
    rw [List.getLast?_map, natSeq_getLast _ _ hx]
    simp only [Option.map_some', Option.some.injEq]
    cases b
    simp_all
  · unfold routeSteps
    rw [List.getLast?_append, List.getLast?_map, natSeq_getLast _ _ hy]
    simp only [Option.map_some']
    cases b
    rfl

theorem pushPos_ne_nil (acc : List Position) (p : Position) (h : acc ≠ []) :
    pushPos acc p ≠ [] := by
  unfold pushPos
  cases hf : acc.findIdx? (fun q => decide (q = p)) with
  | some i =>
    intro hc
    rcases List.take_eq_nil_iff.mp hc with h1 | h1
    · cases h1
    · exact h h1
  | none => simp

theorem pushPos_head? (acc : List Position) (p : Position) (h : acc ≠ []) :
    (pushPos acc p).head? = acc.head? := by
  unfold pushPos
  cases hf : acc.findIdx? (fun q => decide (q = p)) with
  | some i =>
    cases acc with
    | nil => cases h rfl
    | cons a t =>
      show (List.take (i + 1) (a :: t)).head? = (a :: t).head?
      rw [List.take_succ_cons]
      rfl
  | none =>
    cases acc with
    | nil => cases h rfl
    | cons a t => rfl

theorem pushPos_nodup (acc : List Position) (p : Position) (h : acc.Nodup) :
    (pushPos acc p).Nodup := by
  unfold pushPos
  cases hf : acc.findIdx? (fun q => decide (q = p)) with
  | some i => exact (List.take_sublist _ _).nodup h
  | none =>
    have hp : p ∉ acc := by
      intro hmem
      have := List.findIdx?_eq_none_iff.mp hf p hmem
      simp at this
    rw [List.nodup_append]
    refine ⟨h, List.nodup_singleton _, fun x hx hx' => ?_⟩
    rw [List.mem_singleton] at hx'
    subst hx'
    exact hp hx

/-- The invariant of the accepted path during normalization. -/
def accInv (start : Position) (acc : List Position) : Prop :=
  acc ≠ [] ∧ acc.head? = some start ∧ acc.Nodup

theorem pushPos_inv (start : Position) (acc : List Position) (p : Position)
    (h : accInv start acc) : accInv start (pushPos acc p) :=
  ⟨pushPos_ne_nil acc p h.1, by rw [pushPos_head? acc p h.1]; exact h.2.1,
    pushPos_nodup acc p h.2.2⟩

theorem foldl_pushPos_inv (start : Position) (l : List Position) :
    ∀ acc, accInv start acc → accInv start (l.foldl pushPos acc) := by
  induction l with
  | nil => intro acc h; exact h
  | cons x xs ih => intro acc h; exact ih _ (pushPos_inv start acc x h)

theorem pushPos_self_start (start : Position) (t : List Position) :
    pushPos (start :: t) start = [start] := by
  unfold pushPos
  rw [List.findIdx?_cons]
  simp

theorem foldl_pushPos_last (start : Position) (route : List Position) (acc : List Position)
    (hinv : accInv start acc) (hlast : route.getLast? = some start) :
    route.foldl pushPos acc = [start] := by
  obtain ⟨ys, rfl⟩ := List.getLast?_eq_some_iff.mp hlast
  rw [List.foldl_append]
  simp only [List.foldl_cons, List.foldl_nil]
  obtain ⟨hne, hhead, -⟩ := foldl_pushPos_inv start ys acc hinv
  cases hacc : ys.foldl pushPos acc with
  | nil => exact absurd hacc hne
  | cons a t =>
    rw [hacc] at hhead
    simp only [List.head?_cons, Option.some.injEq] at hhead
    rw [hhead]
    exact pushPos_self_start _ t

theorem singleton_of_inv_last (start : Position) (acc : List Position) (hinv : accInv start acc)
    (hlast : acc.getLast? = some start) : acc = [start] := by
  obtain ⟨hne, hhead, hnd⟩ := hinv
  cases acc with
  | nil => cases hne rfl
  | cons a t =>
    simp only [List.head?_cons, Option.some.injEq] at hhead
    rw [← hhead] at hlast ⊢
    cases t with
    | nil => rfl
    | cons b t' =>
      exfalso
      have hmem : a ∈ b :: t' := by
        have hcc : (a :: b :: t').getLast? = (b :: t').getLast? := List.getLast?_cons_cons
        rw [hcc] at hlast
        exact List.mem_of_getLast?_eq_some hlast
      rw [List.nodup_cons] at hnd
      exact hnd.1 hmem

theorem foldl_pushWaypoint_inv (start : Position) (ws : List Position) :
    ∀ acc, accInv start acc → accInv start (ws.foldl (pushWaypoint start) acc) := by
  induction ws with
  | nil => intro acc h; exact h
  | cons x xs ih =>
    intro acc h
    exact ih _ (foldl_pushPos_inv start _ acc h)

theorem normalizePath_last_eq_start (start : Position) (ws : List Position)
    (hlast : ws.getLast? = some start) : normalizePath start ws = [start] := by
  obtain ⟨ys, rfl⟩ := List.getLast?_eq_some_iff.mp hlast
  unfold normalizePath
  rw [List.foldl_append]
  simp only [List.foldl_cons, List.foldl_nil]
  have hinv : accInv start (ys.foldl (pushWaypoint start) [start]) :=
    foldl_pushWaypoint_inv start ys [start] ⟨by simp, rfl, List.nodup_singleton _⟩
  show (routeSteps ((ys.foldl (pushWaypoint start) [start]).getLastD start) start).foldl
      pushPos (ys.foldl (pushWaypoint start) [start]) = [start]
  by_cases hroute :
      routeSteps ((ys.foldl (pushWaypoint start) [start]).getLastD start) start = []
  · rw [hroute]
    simp only [List.foldl_nil]
    have heq := (routeSteps_eq_nil_iff _ _).mp hroute
    have hlastA : (ys.foldl (pushWaypoint start) [start]).getLast? = some start := by
      rw [List.getLastD_eq_getLast?] at heq
      cases hgl : (ys.foldl (pushWaypoint start) [start]).getLast? with
      | none => exact absurd (List.getLast?_eq_none_iff.mp hgl) hinv.1
      | some v =>
        rw [hgl] at heq
        simp only [Option.getD_some] at heq
        rw [heq]
    exact singleton_of_inv_last start _ hinv hlastA
  · exact foldl_pushPos_last start _ _ hinv (routeSteps_getLast _ _ hroute)

/-- C8: a move whose path starts at the item's position and whose final
waypoint equals that starting position is a no-op — the resulting
`LayoutShift` has zero entries and the grid is unchanged. -/
theorem claim8_theorem (g : Grid) (itemId : String) (path : List Position)
    (r : GridLayoutItem) (rest : List Position)
    (hfind : findRect g itemId = some r)
    (hstart : path = ⟨r.x, r.y⟩ :: rest)
    (hlast : path.getLast? = some ⟨r.x, r.y⟩) :
    moveEngine g itemId path = .ok (g, ⟨[]⟩) := by
  have hnorm := normalizePath_last_eq_start ⟨r.x, r.y⟩ path hlast
  simp only [moveEngine, hfind, hnorm, List.drop_succ_cons, List.drop_nil, List.any_nil,
    Bool.false_eq_true, if_false, replaySteps]

/-- C8, witness: the test scenario — a single 1×1 item at the origin of a
3-column grid, dragged in a square and back to its starting cell. -/
def c8Grid : Grid := ⟨[⟨"A", 0, 0, 1, 1⟩], 3⟩

theorem claim8_witness :
    (findRect c8Grid "A" = some ⟨"A", 0, 0, 1, 1⟩) ∧
    (([⟨0, 0⟩, ⟨1, 0⟩, ⟨1, 1⟩, ⟨0, 1⟩, ⟨0, 0⟩] : List Position) =
      ⟨0, 0⟩ :: [⟨1, 0⟩, ⟨1, 1⟩, ⟨0, 1⟩, ⟨0, 0⟩]) ∧
    (([⟨0, 0⟩, ⟨1, 0⟩, ⟨1, 1⟩, ⟨0, 1⟩, ⟨0, 0⟩] : List Position).getLast? = some ⟨0, 0⟩) ∧
    moveEngine c8Grid "A" [⟨0, 0⟩, ⟨1, 0⟩, ⟨1, 1⟩, ⟨0, 1⟩, ⟨0, 0⟩] = .ok (c8Grid, ⟨[]⟩) :=
  ⟨by decide, rfl, by decide,
    claim8_theorem c8Grid "A" [⟨0, 0⟩, ⟨1, 0⟩, ⟨1, 1⟩, ⟨0, 1⟩, ⟨0, 0⟩] ⟨"A", 0, 0, 1, 1⟩
      [⟨1, 0⟩, ⟨1, 1⟩, ⟨0, 1⟩, ⟨0, 0⟩] (by decide) rfl (by decide)⟩

end Board
